import Mathlib

/-!
Verification of the danger-transcode incremental transcode job engine.

The definitions below are a shallow embedding of the TypeScript sources:
the persistent job store (database.ts), the discovery and classification
functions (scanner.ts), the encoder profile factory (encoder.ts /
process.ts), and the commit protocol of the transcoder module.
JavaScript objects become structures, string-keyed records become
functions from String to Option, machine integers become Nat, and
effectful filesystem code is modelled by an explicit state with an
injected-failure schedule.  Where the program computes with JavaScript
floats (the resolution ratio in scanner.ts and the 1.5x bitrate product
in process.ts), the embedding models IEEE-754 binary64 arithmetic
exactly: every float operation is a correctly rounded rational operation
(roundDouble below, round to nearest, ties to even, 53-bit significand,
unbounded exponent — identical to binary64 on all values far from
overflow and underflow, which the theorems' size hypotheses guarantee),
and number-to-string conversion follows the ECMAScript shortest
round-trip algorithm.

The file is laid out with all definitions first and all theorems after.
-/

attribute [local semireducible] Rat.add Rat.mul Rat.inv Rat.sub

namespace DangerTranscode

/-- Record of a transcoded file stored in the database (types.ts, TranscodeRecord).
The optional error field doubles as the "kept original" note. -/
structure TranscodeRecord where
  originalPath : String
  transcodedAt : String
  originalCodec : String
  originalWidth : Nat
  originalHeight : Nat
  newWidth : Nat
  newHeight : Nat
  originalSize : Nat
  newSize : Nat
  duration : Nat
  success : Bool
  error : Option String
deriving DecidableEq

/-- Error record for failed transcodes (types.ts, ErrorRecord). -/
structure ErrorRecord where
  path : String
  timestamp : String
  error : String
  attempts : Nat
deriving DecidableEq

/-- Database structure (types.ts, TranscodeDatabase). The records and errors
maps are embedded as functions from paths to optional records. -/
structure TranscodeDatabase where
  version : Nat
  lastRun : String
  records : String → Option TranscodeRecord
  errors : String → Option ErrorRecord

/-- Pointwise update of a string-keyed map; setting a key to none models
deleting it. -/
def upd {α : Type} (m : String → Option α) (k : String) (v : Option α) :
    String → Option α :=
  fun q => if q = k then v else m q

/-- database.ts isFileTranscoded: filePath in db.records and the record has
success set. -/
def isFileTranscoded (db : TranscodeDatabase) (filePath : String) : Bool :=
  match db.records filePath with
  | some r => r.success
  | none => false

/-- database.ts getFileErrors. -/
def getFileErrors (db : TranscodeDatabase) (filePath : String) : Option ErrorRecord :=
  db.errors filePath

/-- database.ts addTranscodeRecord: stores the record under its originalPath
and clears any previous error for that path (the source guards the delete
with a membership test, which is extensionally the same as always clearing). -/
def addTranscodeRecord (db : TranscodeDatabase) (record : TranscodeRecord) :
    TranscodeDatabase :=
  { db with
    records := upd db.records record.originalPath (some record)
    errors := upd db.errors record.originalPath none }

/-- database.ts addErrorRecord: increments the attempt counter of an existing
error record, or creates one with attempts set to 1. The timestamp argument
models the Date call in the source. -/
def addErrorRecord (db : TranscodeDatabase) (filePath timestamp error : String) :
    TranscodeDatabase :=
  match db.errors filePath with
  | some existingError =>
      { db with
        errors := upd db.errors filePath
          (some { existingError with
                    attempts := existingError.attempts + 1
                    timestamp := timestamp
                    error := error }) }
  | none =>
      { db with
        errors := upd db.errors filePath
          (some { path := filePath, timestamp := timestamp, error := error,
                  attempts := 1 }) }

/-- Attempt counter read off the error map: 0 when no error record exists. -/
def attemptsOf (db : TranscodeDatabase) (p : String) : Nat :=
  match db.errors p with
  | some e => e.attempts
  | none => 0

/-- scanner.ts DiscoveredFile. -/
structure DiscoveredFile where
  path : String
  size : Nat
deriving DecidableEq

/-- Result triple of scanner.ts filterByDatabaseState. -/
structure FilterResult where
  toAnalyze : List DiscoveredFile
  alreadyDone : List String
  tooManyErrors : List String
deriving DecidableEq

/-- Condition of the second branch of the filter loop: an error record exists
and its attempts counter is at least 3. -/
def hasTooManyErrors (db : TranscodeDatabase) (p : String) : Bool :=
  match getFileErrors db p with
  | some e => 3 ≤ e.attempts
  | none => false

/-- scanner.ts filterByDatabaseState: each discovered file goes to
alreadyDone when a success record exists, else to tooManyErrors when an
error record with at least 3 attempts exists, else to toAnalyze. -/
def filterByDatabaseState : List DiscoveredFile → TranscodeDatabase → FilterResult
  | [], _ => ⟨[], [], []⟩
  | f :: files, db =>
    let rest := filterByDatabaseState files db
    if isFileTranscoded db f.path then
      { rest with alreadyDone := f.path :: rest.alreadyDone }
    else if hasTooManyErrors db f.path then
      { rest with tooManyErrors := f.path :: rest.tooManyErrors }
    else
      { rest with toAnalyze := f :: rest.toAnalyze }

/-- schemas.ts CachedVideoInfo. -/
structure CachedVideoInfo where
  codec_name : String
  width : Nat
  height : Nat
  bit_rate : Option String
deriving DecidableEq

/-- schemas.ts AnalysisRecord: cached probe result for one file, keyed for
invalidation by the recorded file size and modification time. -/
structure AnalysisRecord where
  path : String
  fileSize : Nat
  fileMtime : String
  analyzedAt : String
  video : Option CachedVideoInfo
  hasAudio : Bool
  hasSubtitles : Bool
  duration : Nat
  formatName : String
deriving DecidableEq

/-- schemas.ts AnalysisDatabase. -/
structure AnalysisDatabase where
  version : Nat
  lastUpdated : String
  records : String → Option AnalysisRecord

/-- database.ts isAnalysisCacheValid: the stored size and mtime must both
equal the current ones. -/
def isAnalysisCacheValid (record : AnalysisRecord) (currentSize : Nat)
    (currentMtime : String) : Bool :=
  record.fileSize == currentSize && record.fileMtime == currentMtime

/-- database.ts getCachedAnalysis. The fileId argument models
getFileIdentifier, the Deno.stat wrapper that returns the current
(size, mtime) of a path or none when the stat fails. -/
def getCachedAnalysis (db : AnalysisDatabase)
    (fileId : String → Option (Nat × String)) (filePath : String) :
    Option AnalysisRecord :=
  match db.records filePath with
  | none => none
  | some record =>
    match fileId filePath with
    | none => none
    | some (size, mtime) =>
      if isAnalysisCacheValid record size mtime then some record else none

/-- database.ts setAnalysisRecord: upsert keyed by the record path. -/
def setAnalysisRecord (db : AnalysisDatabase) (record : AnalysisRecord) :
    AnalysisDatabase :=
  { db with records := upd db.records record.path (some record) }

/-- types.ts MediaType. -/
inductive MediaType where
  | tv
  | movie
  | other
deriving DecidableEq

/-- schemas.ts HardwareProfile. -/
inductive HardwareProfile where
  | rockchip
  | nvidia
  | software
  | auto
deriving DecidableEq

/-- schemas.ts BitrateConfig. -/
structure BitrateConfig where
  low : String
  medium : String
  high : String
deriving DecidableEq

/-- schemas.ts NvidiaEncoderSettings (validated, all fields present). -/
structure NvidiaEncoderSettings where
  preset : String
  tune : String
  rcMode : String
  lookahead : Nat
  temporalAq : Bool
  spatialAq : Bool
  aqStrength : Nat
  bFrames : Nat
  bRefMode : String
  gopSize : Nat
deriving DecidableEq

/-- schemas.ts RockchipEncoderSettings. -/
structure RockchipEncoderSettings where
  rcMode : String
  afbc : Bool
  qp : Nat
deriving DecidableEq

/-- schemas.ts SoftwareEncoderSettings. -/
structure SoftwareEncoderSettings where
  preset : String
  crf : Nat
  tune : String
deriving DecidableEq

/-- schemas.ts OutputConfig (validated: mode and preserveStructure have
defaults, so only directory stays optional). -/
structure OutputConfig where
  mode : String
  directory : Option String
  preserveStructure : Bool
  replaceOriginal : Bool

/-- schemas.ts ExclusionRules. Compiled regular expressions are embedded as
string predicates paired with their source text (used in reasons). -/
structure ExclusionRules where
  directories : List String
  pathPatterns : List (String × (String → Bool))
  filePatterns : List (String × (String → Bool))
  pathContains : List String

/-- schemas.ts Config, restricted to the fields the verified components
read. -/
structure Config where
  mediaDirs : List String
  tempDir : String
  databasePath : String
  analysisPath : String
  errorLogPath : String
  lockFilePath : String
  maxConcurrency : Nat
  tvMaxHeight : Nat
  movieMaxHeight : Nat
  bitrates : BitrateConfig
  videoExtensions : List String
  exclusions : Option ExclusionRules
  ffmpegPath : String
  ffprobePath : String
  useHardwareAccel : Bool
  hardwareProfile : HardwareProfile
  nvidia : Option NvidiaEncoderSettings
  rockchip : Option RockchipEncoderSettings
  software : Option SoftwareEncoderSettings
  output : Option OutputConfig
  dryRun : Bool

/-- Fuel-based floor logarithm: number of times base b divides into n.
Structural recursion so the kernel can evaluate it on literals. -/
def natLogAux (b : Nat) : Nat → Nat → Nat
  | 0, _ => 0
  | fuel + 1, n => if b ≤ n then natLogAux b fuel (n / b) + 1 else 0

/-- Floor logarithm of a natural number in base b. -/
def natLogF (b n : Nat) : Nat := natLogAux b n n

/-- Integer power of a rational, unfolded over the two integer
constructors so the kernel can evaluate it. -/
def qpow (q : ℚ) : ℤ → ℚ
  | Int.ofNat n => q ^ n
  | Int.negSucc n => (q ^ (n + 1))⁻¹

/-- Floor logarithm of a positive rational in base b: the unique e with
b ^ e ≤ q < b ^ (e + 1). -/
def floorLogB (b : Nat) (q : ℚ) : ℤ :=
  let e0 : ℤ := (natLogF b q.num.natAbs : ℤ) - (natLogF b q.den : ℤ)
  if qpow (b : ℚ) e0 ≤ q then e0 else e0 - 1

/-- Nearest integer to a rational, ties to the even integer — the IEEE-754
default rounding rule restricted to integers. -/
def roundNearestEven (q : ℚ) : ℤ :=
  let f := ⌊q⌋
  if q - f < 1/2 then f
  else if (1 : ℚ)/2 < q - f then f + 1
  else if f % 2 = 0 then f else f + 1

/-- Correct rounding of a positive rational to an IEEE-754 binary64 value
(53-bit significand, round to nearest ties to even, unbounded exponent):
the result of every JavaScript float operation is roundDouble of the exact
rational result of the operation. -/
def roundDouble (q : ℚ) : ℚ :=
  if q ≤ 0 then 0
  else
    let e := floorLogB 2 q
    (roundNearestEven (q * qpow 2 (52 - e)) : ℚ) * qpow 2 (e - 52)

/-- A rational that is exactly representable as a binary64 float
(normalized 53-bit significand). -/
def IsDouble (x : ℚ) : Prop :=
  ∃ m e : ℤ, 2 ^ 52 ≤ m ∧ m < 2 ^ 53 ∧ x = (m : ℚ) * qpow 2 (e - 52)

/-- scanner.ts calculateTargetResolution (the overload with the per-profile
maxHeightOverride): selects the applicable ceiling (an override beats the
per-type config ceiling, and type other without an override means no
scaling), never upscales, and computes the aspect-preserving width rounded
down to an even number.  The float steps of
`Math.floor((newHeight * (width / height)) / 2) * 2` are each rounded with
roundDouble exactly as binary64 evaluates them: the division, the product,
the halving, and the final doubling of the exact integer Math.floor
produces. -/
def calculateTargetResolution (width height : Nat) (mediaType : MediaType)
    (config : Config) (maxHeightOverride : Option Nat) : Option (ℚ × Nat) :=
  let maxHeightChoice : Option Nat :=
    match maxHeightOverride with
    | some h => some h
    | none =>
      match mediaType with
      | .tv => some config.tvMaxHeight
      | .movie => some config.movieMaxHeight
      | .other => none
  match maxHeightChoice with
  | none => none
  | some maxHeight =>
    if height ≤ maxHeight then none
    else
      let aspectRatio : ℚ := roundDouble ((width : ℚ) / (height : ℚ))
      let newHeight := maxHeight
      let newWidth : ℚ :=
        roundDouble (2 *
          (⌊roundDouble (roundDouble ((newHeight : ℚ) * aspectRatio) / 2)⌋ : ℚ))
      some (newWidth, newHeight)

/-- Ceiling selected by calculateTargetResolution before the upscale check:
override first, then the per-type config ceiling, none for type other. -/
def applicableMaxHeight (mediaType : MediaType) (config : Config)
    (maxHeightOverride : Option Nat) : Option Nat :=
  match maxHeightOverride with
  | some h => some h
  | none =>
    match mediaType with
    | .tv => some config.tvMaxHeight
    | .movie => some config.movieMaxHeight
    | .other => none

/-- Character for a decimal digit value below 10. -/
def digitChar : Nat → Char
  | 0 => '0'
  | 1 => '1'
  | 2 => '2'
  | 3 => '3'
  | 4 => '4'
  | 5 => '5'
  | 6 => '6'
  | 7 => '7'
  | 8 => '8'
  | 9 => '9'
  | _ => '0'

/-- Numeric value of a decimal digit character. -/
def digitVal (c : Char) : Nat := c.toNat - 48

/-- Accumulating decimal evaluation of a digit string, as parseFloat does. -/
def parseDigitsAcc : Nat → List Char → Nat
  | acc, [] => acc
  | acc, c :: cs => parseDigitsAcc (acc * 10 + digitVal c) cs

/-- Unit characters accepted by the bitrate pattern, case-insensitive KMG. -/
def bitrateUnits : List Char := ['K', 'M', 'G', 'k', 'm', 'g']

/-- Unit suffix extraction of the bitrate pattern: skip whitespace, then an
optional single KMG character; anything else means no unit. -/
def unitOf (rest : List Char) : String :=
  match rest.dropWhile Char.isWhitespace with
  | c :: _ => if c ∈ bitrateUnits then String.mk [c] else ""
  | [] => ""

/-- Continuation of the bitrate pattern after the integer digits: an
optional dot followed by one or more fraction digits extends the mantissa
and sets the scale; otherwise the integer digits alone form the value.
Returns (mantissa, scale, remaining characters). -/
def parseAfterInt (intDs rest1 : List Char) : Nat × Nat × List Char :=
  match rest1 with
  | c :: r =>
    if c = '.' then
      let fracDs := r.takeWhile Char.isDigit
      if fracDs.isEmpty then (parseDigitsAcc 0 intDs, 0, rest1)
      else (parseDigitsAcc (parseDigitsAcc 0 intDs) fracDs, fracDs.length,
        r.dropWhile Char.isDigit)
    else (parseDigitsAcc 0 intDs, 0, rest1)
  | [] => (parseDigitsAcc 0 intDs, 0, rest1)

/-- Parse of a bitrate string by the anchored pattern used in
process.ts getMaxBitrate: one or more digits, an optional fraction, optional
whitespace, an optional KMG unit (either case); everything after is
ignored. The numeric value is returned exactly as a scaled decimal
(mantissa, scale) with value mantissa / 10 ^ scale. -/
def parseBitrate (s : String) : Option (Nat × Nat × String) :=
  let l := s.toList
  let intDs := l.takeWhile Char.isDigit
  if intDs.isEmpty then none
  else
    let msr := parseAfterInt intDs (l.dropWhile Char.isDigit)
    some (msr.1, msr.2.1, unitOf msr.2.2)

/-- Decimal digit characters of a natural number, least significant
first; fuel-based structural recursion so the kernel can evaluate it. -/
def natDigitsAux : Nat → Nat → List Char
  | 0, _ => []
  | fuel + 1, n =>
    if n = 0 then [] else digitChar (n % 10) :: natDigitsAux fuel (n / 10)

/-- Decimal digit characters of a natural number, most significant first. -/
def natDigits (n : Nat) : List Char :=
  if n = 0 then ['0'] else (natDigitsAux n n).reverse

/-- One step of the ECMAScript shortest-decimal search: among the two
k-digit decimals bracketing x at scale 10 ^ p, the candidates whose
binary64 rounding recovers x exactly; of those, the one closest to x,
ties to the even significand (ECMA-262, Number::toString step 5). -/
def pickCand (x : ℚ) (p : ℤ) : Option ℤ :=
  let c1 : ℤ := ⌊x / qpow 10 p⌋
  let c2 : ℤ := c1 + 1
  let v1 : ℚ := (c1 : ℚ) * qpow 10 p
  let v2 : ℚ := (c2 : ℚ) * qpow 10 p
  if 1 ≤ c1 ∧ roundDouble v1 = x then
    if roundDouble v2 = x then
      if |x - v1| < |x - v2| then some c1
      else if |x - v2| < |x - v1| then some c2
      else if c1 % 2 = 0 then some c1 else some c2
    else some c1
  else if roundDouble v2 = x then some c2
  else none

/-- Search for the smallest significant-digit count k whose nearest
round-tripping decimal exists, from k up to the fuel bound; 17 digits
always suffice for binary64. -/
def shortestLoop (x : ℚ) (L : ℤ) : Nat → Nat → Option (ℤ × ℤ)
  | 0, _ => none
  | fuel + 1, k =>
    match pickCand x (L + 1 - (k : ℤ)) with
    | some s => some (s, L + 1 - (k : ℤ))
    | none => shortestLoop x L fuel (k + 1)

/-- Exact finite decimal expansion of a binary64 value (denominator a
power of two): the safety net of the search, itself round-tripping. -/
def exactDecimal (x : ℚ) : ℤ × ℤ :=
  let j := natLogF 2 x.den
  (x.num * 5 ^ j, -(j : ℤ))

/-- Significand and decimal exponent of the ECMAScript rendering of a
positive binary64 value: value = s * 10 ^ p with s * 10 ^ p rounding back
to x. -/
def shortestRepOf (x : ℚ) : ℤ × ℤ :=
  match shortestLoop x (floorLogB 10 x) 17 1 with
  | some sp => sp
  | none => exactDecimal x

/-- Shift trailing zeros of the significand into the exponent. -/
def stripTens : Nat → ℤ → ℤ → ℤ × ℤ
  | 0, s, p => (s, p)
  | fuel + 1, s, p =>
    if s % 10 = 0 ∧ s ≠ 0 then stripTens fuel (s / 10) (p + 1) else (s, p)

/-- Normalized significand/exponent pair: no trailing zeros. -/
def normalizeRep (sp : ℤ × ℤ) : ℤ × ℤ := stripTens 64 sp.1 sp.2

/-- ECMAScript Number::toString positional/exponential layout of the pair
(s, p) with value s * 10 ^ p: an integer when the point falls at or right
of the digits (up to 21 positions), a decimal point inside or left of the
digits otherwise, exponential notation outside 10 ^ -6 .. 10 ^ 21. -/
def formatRep (s p : ℤ) : String :=
  let ds := natDigits s.natAbs
  let k : ℤ := (ds.length : ℤ)
  let n : ℤ := k + p
  if k ≤ n ∧ n ≤ 21 then String.mk (ds ++ List.replicate (n - k).toNat '0')
  else if 0 < n ∧ n ≤ 21 then
    String.mk (ds.take n.toNat ++ '.' :: ds.drop n.toNat)
  else if -6 < n ∧ n ≤ 0 then
    String.mk ('0' :: '.' :: (List.replicate (-n).toNat '0' ++ ds))
  else
    let mant : List Char :=
      match ds with
      | [] => ds
      | d :: rest => if rest.isEmpty then [d] else d :: '.' :: rest
    let ex := n - 1
    String.mk (mant ++ 'e' :: (if 0 ≤ ex then '+' :: natDigits ex.toNat
      else '-' :: natDigits (-ex).toNat))

/-- ECMAScript string of a nonnegative binary64 value, as a template
literal prints it: "0" for zero, otherwise the shortest decimal whose
binary64 rounding recovers the value, laid out by formatRep. -/
def jsNumberToString (x : ℚ) : String :=
  if x ≤ 0 then "0"
  else
    let sp := normalizeRep (shortestRepOf x)
    formatRep sp.1 sp.2

/-- process.ts getBitrateForHeight: three-tier bucket by target height. -/
def getBitrateForHeight (height : Nat) (config : Config) : String :=
  if height ≤ 720 then config.bitrates.low
  else if height ≤ 1080 then config.bitrates.medium
  else config.bitrates.high

/-- process.ts getMaxBitrate: parseFloat of the matched number (correctly
rounded to binary64), a binary64 multiplication by 1.5, and the template
literal rendering of the product, with the matched unit appended; an
unparseable string is returned unchanged. -/
def getMaxBitrate (bitrate : String) : String :=
  match parseBitrate bitrate with
  | none => bitrate
  | some (m, s, u) =>
    jsNumberToString (roundDouble ((3 : ℚ)/2 * roundDouble ((m : ℚ) / 10 ^ s))) ++ u

/-- types.ts HWAccelInputArgs. -/
structure HWAccelInputArgs where
  hwaccel : Option String
  hwaccelOutputFormat : Option String
  extraInputArgs : Option (List String)
deriving DecidableEq

/-- types.ts EncoderArgs. -/
structure EncoderArgs where
  encoder : String
  bitrateArgs : List String
  qualityArgs : List String
  extraEncoderArgs : Option (List String)
deriving DecidableEq

/-- types.ts ScalerArgs. -/
structure ScalerArgs where
  filter : String
  width : Nat
  height : Nat
deriving DecidableEq

/-- types.ts EncodingProfile. -/
structure EncodingProfile where
  name : String
  hwAccelInput : HWAccelInputArgs
  encoder : EncoderArgs
  getScaler : Nat → Nat → Option ScalerArgs

/-- encoder.ts DEFAULT_NVIDIA_SETTINGS. -/
def DEFAULT_NVIDIA_SETTINGS : NvidiaEncoderSettings :=
  { preset := "p5", tune := "hq", rcMode := "vbr", lookahead := 20,
    temporalAq := true, spatialAq := false, aqStrength := 8, bFrames := 3,
    bRefMode := "middle", gopSize := 250 }

/-- encoder.ts DEFAULT_ROCKCHIP_SETTINGS. -/
def DEFAULT_ROCKCHIP_SETTINGS : RockchipEncoderSettings :=
  { rcMode := "VBR", afbc := true, qp := 23 }

/-- encoder.ts DEFAULT_SOFTWARE_SETTINGS. -/
def DEFAULT_SOFTWARE_SETTINGS : SoftwareEncoderSettings :=
  { preset := "medium", crf := 23, tune := "none" }

/-- encoder.ts createNvidiaProfile. -/
def createNvidiaProfile (settings : NvidiaEncoderSettings)
    (bitrate maxBitrate : String) : EncodingProfile :=
  let hwAccelInput : HWAccelInputArgs :=
    { hwaccel := some "cuda", hwaccelOutputFormat := some "cuda",
      extraInputArgs := some ["-vsync", "0"] }
  let qualityArgs := ["-preset", settings.preset, "-tune", settings.tune]
  let qualityArgs := qualityArgs ++
    (if settings.rcMode = "vbr" then ["-rc", "vbr"]
     else if settings.rcMode = "cbr" then ["-rc", "cbr"]
     else ["-rc", "constqp"])
  let qualityArgs := qualityArgs ++
    (if 0 < settings.lookahead then ["-rc-lookahead", toString settings.lookahead] else [])
  let qualityArgs := qualityArgs ++
    (if settings.temporalAq then ["-temporal-aq", "1"] else [])
  let qualityArgs := qualityArgs ++
    (if settings.spatialAq then
      ["-spatial-aq", "1", "-aq-strength", toString settings.aqStrength]
     else [])
  let qualityArgs := qualityArgs ++ ["-bf", toString settings.bFrames]
  let qualityArgs := qualityArgs ++
    (if 0 < settings.bFrames then ["-b_ref_mode", settings.bRefMode] else [])
  let qualityArgs := qualityArgs ++ ["-g", toString settings.gopSize]
  let qualityArgs := qualityArgs ++ ["-i_qfactor", "0.75", "-b_qfactor", "1.1"]
  { name := "nvidia"
    hwAccelInput := hwAccelInput
    encoder :=
      { encoder := "hevc_nvenc"
        bitrateArgs := ["-b:v", bitrate, "-maxrate", maxBitrate, "-bufsize", bitrate]
        qualityArgs := qualityArgs
        extraEncoderArgs := none }
    getScaler := fun width height =>
      some { filter := "scale_cuda=" ++ toString width ++ ":" ++ toString height
             width := width, height := height } }

/-- encoder.ts createRockchipProfile. -/
def createRockchipProfile (settings : RockchipEncoderSettings)
    (bitrate maxBitrate : String) : EncodingProfile :=
  let hwAccelInput : HWAccelInputArgs :=
    { hwaccel := some "rkmpp", hwaccelOutputFormat := some "drm_prime",
      extraInputArgs := some ["-afbc", "rga"] }
  let qualityArgs := ["-rc_mode", settings.rcMode] ++
    (if settings.rcMode = "CQP" then ["-qp_init", toString settings.qp] else [])
  { name := "rockchip"
    hwAccelInput := hwAccelInput
    encoder :=
      { encoder := "hevc_rkmpp"
        bitrateArgs := ["-b:v", bitrate, "-maxrate", maxBitrate]
        qualityArgs := qualityArgs
        extraEncoderArgs := none }
    getScaler := fun width height =>
      some { filter := "scale_rkrga=w=" ++ toString width ++ ":h=" ++ toString height
               ++ ":format=nv12" ++ (if settings.afbc then ":afbc=1" else "")
             width := width, height := height } }

/-- encoder.ts createSoftwareProfile. -/
def createSoftwareProfile (settings : SoftwareEncoderSettings) : EncodingProfile :=
  let hwAccelInput : HWAccelInputArgs :=
    { hwaccel := none, hwaccelOutputFormat := none, extraInputArgs := none }
  let qualityArgs := ["-preset", settings.preset, "-crf", toString settings.crf] ++
    (if settings.tune ≠ "none" then ["-tune", settings.tune] else [])
  { name := "software"
    hwAccelInput := hwAccelInput
    encoder :=
      { encoder := "libx265"
        bitrateArgs := []
        qualityArgs := qualityArgs
        extraEncoderArgs := none }
    getScaler := fun width height =>
      some { filter := "scale=" ++ toString width ++ ":" ++ toString height
             width := width, height := height } }

/-- Resolution of the configured hardware profile: auto is replaced by the
result of the external capability probe, which is passed in as the detected
profile. -/
def resolveHardware (configured detected : HardwareProfile) : HardwareProfile :=
  if configured = .auto then detected else configured

/-- encoder.ts createEncodingProfile: resolves the hardware profile
(consulting the external detection for auto), resolves the bitrate
(override first, otherwise bucketed by target height), computes the VBR
ceiling, and builds the hardware-specific profile; validated settings
override the defaults wholesale, which the object spread amounts to. -/
def createEncodingProfile (config : Config) (targetHeight : Nat)
    (bitrateOverride : Option String) (detected : HardwareProfile) :
    EncodingProfile :=
  let profile := resolveHardware config.hardwareProfile detected
  let bitrate := bitrateOverride.getD (getBitrateForHeight targetHeight config)
  let maxBitrate := getMaxBitrate bitrate
  match profile with
  | .nvidia => createNvidiaProfile (config.nvidia.getD DEFAULT_NVIDIA_SETTINGS) bitrate maxBitrate
  | .rockchip => createRockchipProfile (config.rockchip.getD DEFAULT_ROCKCHIP_SETTINGS) bitrate maxBitrate
  | _ => createSoftwareProfile (config.software.getD DEFAULT_SOFTWARE_SETTINGS)

/-- encoder.ts buildFFmpegArgsFromProfile: assembles the argument list by
successive pushes; null target dimensions and zero dimensions are falsy in
the source truthiness test. -/
def buildFFmpegArgsFromProfile (profile : EncodingProfile)
    (inputPath outputPath : String) (targetWidth targetHeight : Option Nat) :
    List String :=
  let args : List String := []
  let args := args ++
    (match profile.hwAccelInput.hwaccel with
     | some v => ["-hwaccel", v]
     | none => [])
  let args := args ++
    (match profile.hwAccelInput.hwaccelOutputFormat with
     | some v => ["-hwaccel_output_format", v]
     | none => [])
  let args := args ++
    (match profile.hwAccelInput.extraInputArgs with
     | some extra => extra
     | none => [])
  let args := args ++ ["-i", inputPath]
  let args := args ++ ["-c:v", profile.encoder.encoder]
  let args := args ++
    (match targetWidth, targetHeight with
     | some w, some h =>
       if w ≠ 0 ∧ h ≠ 0 then
         match profile.getScaler w h with
         | some scaler => ["-vf", scaler.filter]
         | none => []
       else []
     | _, _ => [])
  let args := args ++ profile.encoder.bitrateArgs
  let args := args ++ profile.encoder.qualityArgs
  let args := args ++ ["-c:a", "copy"]
  let args := args ++ ["-c:s", "copy"]
  let args := args ++ ["-map", "0"]
  let args := args ++ ["-y"]
  let args := args ++ [outputPath]
  args

/-- Hardware input-acceleration flags of a profile, in push order. -/
def hwAccelArgList (hw : HWAccelInputArgs) : List String :=
  (match hw.hwaccel with
   | some v => ["-hwaccel", v]
   | none => [])
  ++ (match hw.hwaccelOutputFormat with
      | some v => ["-hwaccel_output_format", v]
      | none => [])
  ++ (match hw.extraInputArgs with
      | some extra => extra
      | none => [])

/-- Scaler argument segment: present only for truthy target dimensions and
a scaler returned by the profile. -/
def scalerArgList (profile : EncodingProfile) (targetWidth targetHeight : Option Nat) :
    List String :=
  match targetWidth, targetHeight with
  | some w, some h =>
    if w ≠ 0 ∧ h ≠ 0 then
      match profile.getScaler w h with
      | some scaler => ["-vf", scaler.filter]
      | none => []
    else []
  | _, _ => []

/-- Failure kinds of the modelled filesystem calls: the cross-device error
the move fallback string-matches for, and every other error. -/
inductive FsErr where
  | xdev
  | other
deriving DecidableEq

/-- File contents: a size and an abstract data fingerprint, so byte-identity
is equality of blobs. -/
structure Blob where
  size : Nat
  data : Nat
deriving DecidableEq

/-- Logged filesystem operations (each primitive call is logged when it is
attempted, whether or not it succeeds). -/
inductive FsOp where
  | renameOp (src dst : String)
  | removeOp (p : String)
  | copyOp (src dst : String)
deriving DecidableEq

/-- Filesystem state: contents per path, a schedule of injected failures
consumed one entry per primitive call (none means the environment does not
fail that call; an exhausted schedule means no injected failures), and the
log of attempted operations. -/
structure FsState where
  fs : String → Option Blob
  sched : List (Option FsErr)
  log : List FsOp

/-- Pointwise update of filesystem contents. -/
def fsSet (fs : String → Option Blob) (p : String) (b : Option Blob) :
    String → Option Blob :=
  fun q => if q = p then b else fs q

/-- Consume the next scheduled outcome. -/
def nextOutcome (m : FsState) : Option FsErr × FsState :=
  match m.sched with
  | [] => (none, m)
  | o :: rest => (o, { m with sched := rest })

/-- Deno.rename: fails when the environment injects a failure or the source
is absent; on success the source entry moves to the destination. -/
def renameF (src dst : String) (m : FsState) : Option FsErr × FsState :=
  let om := nextOutcome m
  let m1 := { om.2 with log := om.2.log ++ [FsOp.renameOp src dst] }
  match om.1 with
  | some e => (some e, m1)
  | none =>
    match m1.fs src with
    | none => (some FsErr.other, m1)
    | some b => (none, { m1 with fs := fsSet (fsSet m1.fs src none) dst (some b) })

/-- Deno.remove: fails on an injected failure or an absent path. -/
def removeF (p : String) (m : FsState) : Option FsErr × FsState :=
  let om := nextOutcome m
  let m1 := { om.2 with log := om.2.log ++ [FsOp.removeOp p] }
  match om.1 with
  | some e => (some e, m1)
  | none =>
    match m1.fs p with
    | none => (some FsErr.other, m1)
    | some _ => (none, { m1 with fs := fsSet m1.fs p none })

/-- Deno.copyFile: fails on an injected failure or an absent source; on
success the destination holds the same blob. -/
def copyF (src dst : String) (m : FsState) : Option FsErr × FsState :=
  let om := nextOutcome m
  let m1 := { om.2 with log := om.2.log ++ [FsOp.copyOp src dst] }
  match om.1 with
  | some e => (some e, m1)
  | none =>
    match m1.fs src with
    | none => (some FsErr.other, m1)
    | some b => (none, { m1 with fs := fsSet m1.fs dst (some b) })

/-- Transcoder moveFile: rename first, and exactly on the cross-device
error fall back to copy plus delete; other errors propagate. -/
def moveFile (src dst : String) (m : FsState) : Option FsErr × FsState :=
  match renameF src dst m with
  | (none, m1) => (none, m1)
  | (some e, m1) =>
    if e = FsErr.xdev then
      match copyF src dst m1 with
      | (none, m2) => removeF src m2
      | (some e2, m2) => (some e2, m2)
    else (some e, m1)

/-- Transcoder replaceOriginalFile: rename the original to the backup path,
move the transcoded file onto the original path, delete the backup; on any
failure attempt to rename the backup back to the original path, swallowing
the outcome of that attempt, and propagate the error. -/
def replaceOriginalFile (originalPath transcodedPath : String) (m : FsState) :
    Option FsErr × FsState :=
  let backupPath := originalPath ++ ".backup"
  let body :=
    match renameF originalPath backupPath m with
    | (some e, m1) => (some e, m1)
    | (none, m1) =>
      match moveFile transcodedPath originalPath m1 with
      | (some e, m2) => (some e, m2)
      | (none, m2) => removeF backupPath m2
  match body with
  | (none, m3) => (none, m3)
  | (some e, m3) => (some e, (renameF backupPath originalPath m3).2)

/-- types.ts TranscodeOverrides. -/
structure TranscodeOverrides where
  maxHeight : Option Nat
  bitrate : Option String
  inPlace : Option Bool
  outputDir : Option String
  profileName : Option String
deriving DecidableEq

/-- types.ts MediaFile. -/
structure MediaFile where
  path : String
  type : MediaType
  codec : String
  width : Nat
  height : Nat
  size : Nat
  duration : Option Nat
  bitrate : Option Nat
  needsTranscode : Bool
  skipReason : Option String
  targetWidth : Option Nat
  targetHeight : Option Nat
  overrides : Option TranscodeOverrides
deriving DecidableEq

/-- Transcoder shouldOutputInPlace: a per-file override wins, otherwise any
output mode other than separate means in-place. -/
def shouldOutputInPlace (file : MediaFile) (config : Config) : Bool :=
  match file.overrides.bind (fun o => o.inPlace) with
  | some b => b
  | none => decide (config.output.map (fun o => o.mode) ≠ some "separate")

/-- Last path component, the basename of a file path. -/
def basenameStr (p : String) : String :=
  String.mk ((p.toList.reverse.takeWhile (fun c => c != '/')).reverse)

/-- Replacement by the pattern of a final dot followed by one or more
non-dot characters: when the path ends in such an extension, everything
from that dot on is replaced; otherwise the path is unchanged. -/
def replaceFinalExt (p repl : String) : String :=
  let rev := p.toList.reverse
  let afterDot := rev.takeWhile (fun c => c != '.')
  let rest := rev.dropWhile (fun c => c != '.')
  match rest with
  | _ :: pre => if afterDot.isEmpty then p else String.mk (pre.reverse ++ repl.toList)
  | [] => p

/-- Path join with separator normalization at the seam. -/
def joinPath (a b : String) : String :=
  let a2 := if a.toList.getLast? = some '/' then String.mk a.toList.dropLast else a
  let b2 := if b.toList.head? = some '/' then String.mk (b.toList.drop 1) else b
  a2 ++ "/" ++ b2

/-- Transcoder getTempOutputPath: basename with its extension replaced by
.transcoding.mkv, inside the temp directory. -/
def getTempOutputPath (config : Config) (inputPath : String) : String :=
  joinPath config.tempDir (replaceFinalExt (basenameStr inputPath) ".transcoding.mkv")

/-- Transcoder getFinalOutputPath (effect-free part: directory creation is
not modelled): the input path for in-place mode or when separate mode lacks
an output directory; otherwise the destination under the output directory,
optionally mirroring the path relative to the containing media root, with
the extension changed to mkv. -/
def getFinalOutputPath (file : MediaFile) (config : Config) : String :=
  if shouldOutputInPlace file config then file.path
  else
    match (file.overrides.bind (fun o => o.outputDir)).orElse
        (fun _ => config.output.bind (fun o => o.directory)) with
    | none => file.path
    | some outputDir =>
      let finalOutputPath :=
        if (config.output.map (fun o => o.preserveStructure)).getD false then
          match config.mediaDirs.find? (fun dir => file.path.startsWith dir) with
          | some mediaDir =>
            joinPath outputDir (String.mk (file.path.toList.drop mediaDir.length))
          | none => joinPath outputDir (basenameStr file.path)
        else joinPath outputDir (basenameStr file.path)
      replaceFinalExt finalOutputPath ".mkv"

/-- Transcoder TranscodeResult. -/
structure TranscodeResult where
  success : Bool
  record : Option TranscodeRecord
  error : Option String
  outputPath : Option String
deriving DecidableEq

/-- Ambient inputs of one transcodeFile run: the external encoder outcome
(exit code, the blob it wrote, its stderr text) and the clock reads. -/
structure TranscodeEnv where
  ffmpegExit : Nat
  ffmpegOutput : Blob
  ffmpegStderrText : String
  startTime : Nat
  endTime : Nat
  nowIso : String
deriving DecidableEq

/-- Message text carried by a modelled filesystem error. -/
def fsErrMessage : FsErr → String
  | FsErr.xdev => "cross-device link not permitted"
  | FsErr.other => "filesystem operation failed"

/-- Catch handler of transcodeFile: remove the temp file ignoring errors and
report the failure. -/
def transcodeFailure (msg tempOutputPath : String) (m : FsState) :
    TranscodeResult × FsState :=
  ({ success := false, record := none, error := some msg, outputPath := none },
   (removeF tempOutputPath m).2)

/-- Transcoder transcodeFile: dry-run short-circuit, encoder run writing the
temp file, failure on nonzero exit, stat of both files, the in-place
keep-original branch when the result is not smaller, and otherwise the
in-place replace or the separate-mode move, with the catch handler cleaning
the temp file on any failure. -/
def transcodeFile (file : MediaFile) (config : Config) (env : TranscodeEnv)
    (m : FsState) : TranscodeResult × FsState :=
  let inPlace := shouldOutputInPlace file config
  let tempOutputPath := getTempOutputPath config file.path
  if config.dryRun then
    ({ success := true, record := none, error := none, outputPath := none }, m)
  else
    let m := { m with fs := fsSet m.fs tempOutputPath (some env.ffmpegOutput) }
    if env.ffmpegExit ≠ 0 then
      transcodeFailure ("FFmpeg exited with code " ++ toString env.ffmpegExit ++ ": "
        ++ env.ffmpegStderrText) tempOutputPath m
    else
      match m.fs file.path with
      | none => transcodeFailure "stat original failed" tempOutputPath m
      | some originalStat =>
        match m.fs tempOutputPath with
        | none => transcodeFailure "stat output failed" tempOutputPath m
        | some newStat =>
          let duration := (env.endTime - env.startTime) / 1000
          let finalOutputPath := getFinalOutputPath file config
          if inPlace ∧ originalStat.size ≤ newStat.size then
            match removeF tempOutputPath m with
            | (some e, m1) => transcodeFailure (fsErrMessage e) tempOutputPath m1
            | (none, m1) =>
              ({ success := true
                 record := some
                   { originalPath := file.path, transcodedAt := env.nowIso,
                     originalCodec := file.codec, originalWidth := file.width,
                     originalHeight := file.height, newWidth := file.width,
                     newHeight := file.height, originalSize := originalStat.size,
                     newSize := originalStat.size, duration := duration,
                     success := true,
                     error := some "Transcoded file was not smaller - kept original" }
                 error := none, outputPath := none }, m1)
          else
            match (if inPlace then replaceOriginalFile file.path tempOutputPath m
                   else moveFile tempOutputPath finalOutputPath m) with
            | (some e, m1) => transcodeFailure (fsErrMessage e) tempOutputPath m1
            | (none, m1) =>
              ({ success := true
                 record := some
                   { originalPath := file.path, transcodedAt := env.nowIso,
                     originalCodec := file.codec, originalWidth := file.width,
                     originalHeight := file.height,
                     newWidth := file.targetWidth.getD file.width,
                     newHeight := file.targetHeight.getD file.height,
                     originalSize := originalStat.size, newSize := newStat.size,
                     duration := duration, success := true, error := none }
                 error := none
                 outputPath := some (if inPlace then file.path else finalOutputPath) },
               m1)

/-- Concrete sample path used by witnesses. -/
def samplePathA : String := "/media/tv/ShowA/S01E01.mkv"

/-- Sample successful transcode record for the sample path. -/
def sampleRecordDone : TranscodeRecord :=
  ⟨samplePathA, "2026-01-01T00:00:00Z", "h264", 1920, 1080, 1280, 720,
   1000, 500, 60, true, none⟩

/-- Sample failed transcode record for the sample path. -/
def sampleRecordFailed : TranscodeRecord :=
  ⟨samplePathA, "2026-01-01T00:00:00Z", "h264", 1920, 1080, 1920, 1080,
   1000, 1000, 60, false, some "encoder crashed"⟩

/-- Database holding exactly one successful record, for the sample path. -/
def sampleDbDone : TranscodeDatabase :=
  ⟨1, "2026-01-01T00:00:00Z",
   fun p => if p = samplePathA then some sampleRecordDone else none,
   fun _ => none⟩

/-- Empty job store. -/
def emptyDb : TranscodeDatabase := ⟨1, "2026-01-01T00:00:00Z", fun _ => none, fun _ => none⟩

/-- Empty analysis cache. -/
def emptyAnalysisDb : AnalysisDatabase := ⟨1, "2026-01-01T00:00:00Z", fun _ => none⟩

/-- Discovered-file entry for the sample path. -/
def sampleFileA : DiscoveredFile := ⟨samplePathA, 1000⟩

/-- Sample analysis record for the sample path. -/
def sampleAnalysisA : AnalysisRecord :=
  ⟨samplePathA, 1000, "2026-01-01T00:00:00Z", "2026-01-02T00:00:00Z",
   some ⟨"h264", 1920, 1080, some "8000000"⟩, true, true, 2600, "matroska"⟩

/-- Concrete configuration used by counterexamples and witnesses. -/
def sampleConfig : Config where
  mediaDirs := ["/media"]
  tempDir := "/tmp/danger-transcode"
  databasePath := "/var/lib/danger-transcode/database.json"
  analysisPath := "/var/lib/danger-transcode/analysis.json"
  errorLogPath := "/var/lib/danger-transcode/errors.json"
  lockFilePath := "/tmp/danger-transcode.lock"
  maxConcurrency := 1
  tvMaxHeight := 720
  movieMaxHeight := 1080
  bitrates := ⟨"2M", "5M", "15M"⟩
  videoExtensions := [".mkv", ".mp4"]
  exclusions := none
  ffmpegPath := "ffmpeg"
  ffprobePath := "ffprobe"
  useHardwareAccel := true
  hardwareProfile := .auto
  nvidia := none
  rockchip := none
  software := none
  output := none
  dryRun := false

/-- Separate-output variant of the sample configuration. -/
def sepConfig : Config :=
  { sampleConfig with
    output := some { mode := "separate", directory := some "/out",
                     preserveStructure := false, replaceOriginal := true } }

/-- Original path used by the commit-protocol examples. -/
def crashOrig : String := "/media/a.mkv"

/-- Temp path used by the commit-protocol examples. -/
def crashTemp : String := "/tmp/danger-transcode/a.transcoding.mkv"

/-- Filesystem holding the original and the transcoded temp file. -/
def crashFs : String → Option Blob :=
  fun p =>
    if p = crashOrig then some ⟨50, 1⟩
    else if p = crashTemp then some ⟨40, 2⟩
    else none

/-- State whose schedule fails the second primitive call: the backup rename
succeeds and the move of the temp file onto the original fails. -/
def crashState : FsState := ⟨crashFs, [none, some FsErr.other], []⟩

/-- Model filesystem tree for the discovery phase: files carry an optional
size (none means the per-file stat fails), directories carry a readability
flag (an unreadable directory makes the walk throw when it is entered). -/
inductive FsNode where
  | file (name : String) (size : Option Nat)
  | dir (name : String) (readable : Bool) (children : List FsNode)

/-- Contiguous-substring test on character lists. -/
def isSubstring (needle : List Char) : List Char → Bool
  | [] => needle.isEmpty
  | c :: t => needle.isPrefixOf (c :: t) || isSubstring needle t

/-- Semantics of the directory-skip pattern built by
buildDirectorySkipRegex: an excluded name (lowercased, matched literally)
occurs in the lowercased path bounded by slashes, the start, or the end. -/
def dirSkipMatch (dirs : List String) (path : String) : Bool :=
  dirs.any fun d =>
    isSubstring (("/" ++ d.toLower ++ "/").toList) (("/" ++ path.toLower ++ "/").toList)

/-- scanner.ts buildDirectorySkipRegex: none when no excluded directories
are configured, else the component-boundary matcher. -/
def buildDirectorySkip (config : Config) : Option (String → Bool) :=
  match config.exclusions with
  | none => none
  | some ex =>
    if ex.directories.isEmpty then none else some (dirSkipMatch ex.directories)

mutual
/-- Walk of one tree node, modelling the std fs walk with includeDirs
false: entries matching the skip pattern are pruned (files and whole
directory subtrees alike), an unreadable directory that is entered raises
an error carrying its path, and files are yielded with their stat
outcome. -/
def walkNode (path : String) (skip : String → Bool) :
    FsNode → Except String (List (String × Option Nat))
  | FsNode.file name size =>
    let p := path ++ "/" ++ name
    if skip p then Except.ok [] else Except.ok [(p, size)]
  | FsNode.dir name readable children =>
    let p := path ++ "/" ++ name
    if skip p then Except.ok []
    else if readable then walkChildren p skip children
    else Except.error p
/-- Walk of a list of sibling nodes, concatenating their yields and
propagating the first error. -/
def walkChildren (path : String) (skip : String → Bool) :
    List FsNode → Except String (List (String × Option Nat))
  | [] => Except.ok []
  | c :: cs =>
    match walkNode path skip c with
    | Except.error e => Except.error e
    | Except.ok r =>
      match walkChildren path skip cs with
      | Except.error e => Except.error e
      | Except.ok rs => Except.ok (r ++ rs)
end

/-- Walk of a root directory (the caller has already checked with stat that
the root is a directory; the walk itself reads it). -/
def walkRoot (rootPath : String) (skip : String → Bool) (readable : Bool)
    (children : List FsNode) : Except String (List (String × Option Nat)) :=
  if readable then walkChildren rootPath skip children
  else Except.error rootPath

/-- Extension of a path: the final dot of the basename with the characters
after it, empty for a dotless or dot-initial basename. -/
def extnameStr (p : String) : String :=
  let base := (basenameStr p).toList
  let afterDot := base.reverse.takeWhile (fun c => c != '.')
  let rest := base.reverse.dropWhile (fun c => c != '.')
  match rest with
  | [] => ""
  | [_] => ""
  | _ :: _ :: _ => String.mk ('.' :: afterDot.reverse)

/-- scanner.ts isVideoFile: lowercased extension in the configured
allowlist. -/
def isVideoFile (filePath : String) (config : Config) : Bool :=
  config.videoExtensions.contains (extnameStr filePath).toLower

/-- scanner.ts ExclusionCheck. -/
structure ExclusionCheck where
  excluded : Bool
  reason : Option String
deriving DecidableEq

/-- scanner.ts checkExclusions: directory components, literal substrings,
path regexes, filename regexes, first match wins. Compiled regexes are
embedded as predicates paired with their source text. -/
def checkExclusions (filePath : String) (config : Config) : ExclusionCheck :=
  match config.exclusions with
  | none => ⟨false, none⟩
  | some exclusions =>
    let pathLower := filePath.toLower
    let fileName := basenameStr filePath
    let pathParts := (filePath.splitOn "/").map String.toLower
    match exclusions.directories.find? (fun d => pathParts.contains d.toLower) with
    | some d => ⟨true, some ("Directory excluded: " ++ d)⟩
    | none =>
      match exclusions.pathContains.find? (fun needle =>
          isSubstring needle.toLower.toList pathLower.toList) with
      | some needle => ⟨true, some ("Path contains: " ++ needle)⟩
      | none =>
        match exclusions.pathPatterns.find? (fun pat => pat.2 filePath) with
        | some pat => ⟨true, some ("Path matches pattern: " ++ pat.1)⟩
        | none =>
          match exclusions.filePatterns.find? (fun pat => pat.2 fileName) with
          | some pat => ⟨true, some ("Filename matches pattern: " ++ pat.1)⟩
          | none => ⟨false, none⟩

/-- scanner.ts DirectoryScanResult. -/
structure DirectoryScanResult where
  files : List DiscoveredFile
  excluded : List (String × String)
  skippedDirs : List String
deriving DecidableEq

/-- scanner.ts discoverDirectory: walk the tree, keep video files that pass
the exclusion rules, skip files whose stat fails; a walk error (unreadable
subdirectory) propagates. -/
def discoverDirectory (dirPath : String) (readable : Bool)
    (children : List FsNode) (config : Config) :
    Except String DirectoryScanResult :=
  let skipF : String → Bool :=
    match buildDirectorySkip config with
    | some f => f
    | none => fun _ => false
  match walkRoot dirPath skipF readable children with
  | Except.error e => Except.error e
  | Except.ok entries =>
    Except.ok (entries.foldl (fun acc entry =>
      if ¬isVideoFile entry.1 config then acc
      else
        let check := checkExclusions entry.1 config
        if check.excluded then
          { acc with
            excluded := acc.excluded ++ [(entry.1, check.reason.getD "Excluded")] }
        else
          match entry.2 with
          | some size => { acc with files := acc.files ++ [⟨entry.1, size⟩] }
          | none => acc)
      ⟨[], [], []⟩)

/-- scanner.ts DiscoveryResult. -/
structure DiscoveryResult where
  files : List DiscoveredFile
  excluded : List (String × String)
  skippedDirs : List String
  totalSize : Nat
deriving DecidableEq

/-- Stat outcome of a configured media root: not found, a stat error other
than not-found, present but not a directory, or a directory with a
readability flag and children. -/
inductive RootEntry where
  | missing
  | statFail
  | notDir
  | dirEntry (readable : Bool) (children : List FsNode)

/-- Loop of scanner.ts discoverMediaFiles over the configured roots:
missing or non-directory roots are recorded in skippedDirs and skipped,
other stat errors are rethrown, and each directory root is discovered with
its walk errors propagating. -/
def discoverMediaFilesGo (config : Config) (rootFs : String → RootEntry) :
    List String → DiscoveryResult → Except String DiscoveryResult
  | [], acc => Except.ok acc
  | root :: roots, acc =>
    match rootFs root with
    | RootEntry.missing =>
      discoverMediaFilesGo config rootFs roots
        { acc with skippedDirs := acc.skippedDirs ++ [root] }
    | RootEntry.notDir =>
      discoverMediaFilesGo config rootFs roots
        { acc with skippedDirs := acc.skippedDirs ++ [root] }
    | RootEntry.statFail => Except.error ("stat failed: " ++ root)
    | RootEntry.dirEntry readable children =>
      match discoverDirectory root readable children config with
      | Except.error e => Except.error e
      | Except.ok r =>
        discoverMediaFilesGo config rootFs roots
          { acc with files := acc.files ++ r.files,
                     excluded := acc.excluded ++ r.excluded }

/-- scanner.ts discoverMediaFiles, with the total size summed at the end. -/
def discoverMediaFiles (config : Config) (rootFs : String → RootEntry) :
    Except String DiscoveryResult :=
  match discoverMediaFilesGo config rootFs config.mediaDirs ⟨[], [], [], 0⟩ with
  | Except.error e => Except.error e
  | Except.ok r =>
    Except.ok { r with totalSize := r.files.foldl (fun sum f => sum + f.size) 0 }

mutual
/-- Every directory of the node is readable. -/
def allReadableNode : FsNode → Bool
  | FsNode.file _ _ => true
  | FsNode.dir _ readable children => readable && allReadableChildren children
/-- Every directory below the listed nodes is readable. -/
def allReadableChildren : List FsNode → Bool
  | [] => true
  | c :: cs => allReadableNode c && allReadableChildren cs
end

/-- Benign root entry: any stat outcome except a rethrown stat error, with
read access throughout when the root is a directory. -/
def rootOk : RootEntry → Bool
  | RootEntry.statFail => false
  | RootEntry.dirEntry readable children => readable && allReadableChildren children
  | _ => true

/-- Root map with an unreadable subdirectory below the media root. -/
def lockedRootFs : String → RootEntry :=
  fun r =>
    if r = "/media" then
      RootEntry.dirEntry true
        [FsNode.dir "locked" false [], FsNode.file "ok.mkv" (some 5)]
    else RootEntry.missing

/-- Root map whose single root is fully readable. -/
def readableRootFs : String → RootEntry :=
  fun r =>
    if r = "/media" then
      RootEntry.dirEntry true
        [FsNode.file "ok.mkv" (some 5),
         FsNode.dir "sub" true [FsNode.file "b.mp4" (some 7), FsNode.file "x.txt" none]]
    else RootEntry.missing

/-- Media file used by the transcode examples. -/
def cexFile : MediaFile :=
  ⟨"/media/a.mkv", MediaType.movie, "h264", 1920, 1080, 50, none, none,
   true, none, some 1920, some 1080, none⟩

/-- Encoder outcome used by the transcode examples: success, with an output
larger than the original. -/
def cexEnv : TranscodeEnv := ⟨0, ⟨100, 7⟩, "", 0, 5000, "2026-01-02T00:00:00Z"⟩

/-- Filesystem state holding only the original file, with no injected
failures. -/
def cexState : FsState :=
  ⟨fun p => if p = "/media/a.mkv" then some ⟨50, 3⟩ else none, [], []⟩

/-! ### Theorems -/

theorem upd_same {α : Type} (m : String → Option α) (k : String) (v : Option α) :
    upd m k v k = v := by
  simp [upd]

theorem upd_other {α : Type} (m : String → Option α) (k : String) (v : Option α)
    (q : String) (h : q ≠ k) : upd m k v q = m q := by
  simp [upd, h]

theorem filterByDatabaseState_toAnalyze_mem (files : List DiscoveredFile)
    (db : TranscodeDatabase) (f : DiscoveredFile) :
    f ∈ (filterByDatabaseState files db).toAnalyze ↔
      f ∈ files ∧ isFileTranscoded db f.path = false ∧
        hasTooManyErrors db f.path = false := by
  induction files with
  | nil => simp [filterByDatabaseState]
  | cons g files ih =>
    by_cases h1 : isFileTranscoded db g.path
    · by_cases hgf : f = g
      · subst hgf
        simp [filterByDatabaseState, h1, ih, h1]
      · simp [filterByDatabaseState, h1, ih, hgf]
    · by_cases h2 : hasTooManyErrors db g.path
      · by_cases hgf : f = g
        · subst hgf
          simp [filterByDatabaseState, h1, h2, ih]
        · simp [filterByDatabaseState, h1, h2, ih, hgf]
      · by_cases hgf : f = g
        · subst hgf
          simp [filterByDatabaseState, h1, h2, ih, Bool.not_eq_true]
        · simp [filterByDatabaseState, h1, h2, ih, hgf]

theorem filterByDatabaseState_alreadyDone_mem (files : List DiscoveredFile)
    (db : TranscodeDatabase) (f : DiscoveredFile) (hf : f ∈ files)
    (ht : isFileTranscoded db f.path = true) :
    f.path ∈ (filterByDatabaseState files db).alreadyDone := by
  induction files with
  | nil => simp at hf
  | cons g files ih =>
    rcases List.mem_cons.mp hf with hgf | hmem
    · subst hgf
      simp [filterByDatabaseState, ht]
    · by_cases h1 : isFileTranscoded db g.path
      · simp [filterByDatabaseState, h1]
        exact Or.inr (ih hmem)
      · by_cases h2 : hasTooManyErrors db g.path
        · simpa [filterByDatabaseState, h1, h2] using ih hmem
        · simpa [filterByDatabaseState, h1, h2] using ih hmem

theorem filterByDatabaseState_tooMany_mem (files : List DiscoveredFile)
    (db : TranscodeDatabase) (f : DiscoveredFile) (hf : f ∈ files)
    (ht : isFileTranscoded db f.path = false)
    (he : hasTooManyErrors db f.path = true) :
    f.path ∈ (filterByDatabaseState files db).tooManyErrors := by
  induction files with
  | nil => simp at hf
  | cons g files ih =>
    rcases List.mem_cons.mp hf with hgf | hmem
    · subst hgf
      simp [filterByDatabaseState, ht, he]
    · by_cases h1 : isFileTranscoded db g.path
      · simpa [filterByDatabaseState, h1] using ih hmem
      · by_cases h2 : hasTooManyErrors db g.path
        · simp [filterByDatabaseState, h1, h2]
          exact Or.inr (ih hmem)
        · simpa [filterByDatabaseState, h1, h2] using ih hmem

theorem hasTooManyErrors_iff (db : TranscodeDatabase) (p : String) :
    hasTooManyErrors db p = true ↔
      ∃ e, getFileErrors db p = some e ∧ 3 ≤ e.attempts := by
  unfold hasTooManyErrors
  cases h : getFileErrors db p with
  | none => simp
  | some e => simp [decide_eq_true_eq]

/-- C3: for every list of discovered files and every job store,
filterByDatabaseState puts a file with a successful transcode record into
alreadyDone (and never into toAnalyze), puts a file without one but with an
error record of at least 3 attempts into tooManyErrors, and puts a file
into toAnalyze exactly when neither condition holds. -/
theorem claim_C3 (files : List DiscoveredFile) (db : TranscodeDatabase)
    (f : DiscoveredFile) (hf : f ∈ files) :
    (isFileTranscoded db f.path = true →
      f.path ∈ (filterByDatabaseState files db).alreadyDone ∧
      f ∉ (filterByDatabaseState files db).toAnalyze)
    ∧ (isFileTranscoded db f.path = false →
        (∃ e, getFileErrors db f.path = some e ∧ 3 ≤ e.attempts) →
        f.path ∈ (filterByDatabaseState files db).tooManyErrors)
    ∧ (f ∈ (filterByDatabaseState files db).toAnalyze ↔
        isFileTranscoded db f.path = false ∧
        hasTooManyErrors db f.path = false) := by
  refine ⟨fun ht => ⟨filterByDatabaseState_alreadyDone_mem files db f hf ht, ?_⟩,
    fun ht he => ?_, ?_⟩
  · intro hmem
    rcases (filterByDatabaseState_toAnalyze_mem files db f).mp hmem with ⟨-, hft, -⟩
    rw [ht] at hft
    exact Bool.noConfusion hft
  · exact filterByDatabaseState_tooMany_mem files db f hf ht
      ((hasTooManyErrors_iff db f.path).mpr he)
  · constructor
    · intro hmem
      exact ((filterByDatabaseState_toAnalyze_mem files db f).mp hmem).2
    · intro hc
      exact (filterByDatabaseState_toAnalyze_mem files db f).mpr ⟨hf, hc⟩

theorem claim_C3_witness :
    sampleFileA ∈ [sampleFileA] ∧
    ((isFileTranscoded sampleDbDone sampleFileA.path = true →
      sampleFileA.path ∈ (filterByDatabaseState [sampleFileA] sampleDbDone).alreadyDone ∧
      sampleFileA ∉ (filterByDatabaseState [sampleFileA] sampleDbDone).toAnalyze)
    ∧ (isFileTranscoded sampleDbDone sampleFileA.path = false →
        (∃ e, getFileErrors sampleDbDone sampleFileA.path = some e ∧ 3 ≤ e.attempts) →
        sampleFileA.path ∈ (filterByDatabaseState [sampleFileA] sampleDbDone).tooManyErrors)
    ∧ (sampleFileA ∈ (filterByDatabaseState [sampleFileA] sampleDbDone).toAnalyze ↔
        isFileTranscoded sampleDbDone sampleFileA.path = false ∧
        hasTooManyErrors sampleDbDone sampleFileA.path = false)) :=
  ⟨by simp, claim_C3 [sampleFileA] sampleDbDone sampleFileA (by simp)⟩

/-- C7: the attempt counter becomes 1 on the first addErrorRecord for a
path, increases by exactly one on each subsequent addErrorRecord, the
error record is removed when a successful TranscodeRecord is written for
the path, and a path whose counter reached 3 is never selected for
analysis. -/
theorem claim_C7 (db : TranscodeDatabase) (p ts msg : String)
    (r : TranscodeRecord) (hr : r.originalPath = p) (hs : r.success = true) :
    attemptsOf (addErrorRecord db p ts msg) p = attemptsOf db p + 1
    ∧ (db.errors p = none →
        (addErrorRecord db p ts msg).errors p = some ⟨p, ts, msg, 1⟩)
    ∧ (addTranscodeRecord db r).errors p = none
    ∧ (∀ files (f : DiscoveredFile), f ∈ files → f.path = p →
        ∀ e, getFileErrors db p = some e → 3 ≤ e.attempts →
          f ∉ (filterByDatabaseState files db).toAnalyze) := by
  refine ⟨?_, ?_, ?_, ?_⟩
  · unfold attemptsOf addErrorRecord
    cases h : db.errors p <;> simp [h, upd]
  · intro h
    unfold addErrorRecord
    simp [h, upd]
  · unfold addTranscodeRecord
    simp [hr, upd]
  · intro files f hfmem hfp e he h3 hmem
    rcases (filterByDatabaseState_toAnalyze_mem files db f).mp hmem with ⟨-, -, hno⟩
    rw [hfp] at hno
    rw [(hasTooManyErrors_iff db p).mpr ⟨e, he, h3⟩] at hno
    exact Bool.noConfusion hno

theorem claim_C7_witness :
    sampleRecordDone.originalPath = samplePathA ∧
    sampleRecordDone.success = true ∧
    (attemptsOf (addErrorRecord emptyDb samplePathA "t1" "boom") samplePathA =
      attemptsOf emptyDb samplePathA + 1
    ∧ (emptyDb.errors samplePathA = none →
        (addErrorRecord emptyDb samplePathA "t1" "boom").errors samplePathA =
          some ⟨samplePathA, "t1", "boom", 1⟩)
    ∧ (addTranscodeRecord emptyDb sampleRecordDone).errors samplePathA = none
    ∧ (∀ files (f : DiscoveredFile), f ∈ files → f.path = samplePathA →
        ∀ e, getFileErrors emptyDb samplePathA = some e → 3 ≤ e.attempts →
          f ∉ (filterByDatabaseState files emptyDb).toAnalyze)) :=
  ⟨rfl, rfl, claim_C7 emptyDb samplePathA "t1" "boom" sampleRecordDone rfl rfl⟩

/-- C10 (implicit): addTranscodeRecord clears the error record for the path
even when the written record has success set to false, while
isFileTranscoded stays false for such a record, so the path has its retry
count reset and remains eligible for re-selection by discovery. -/
theorem claim_C10 (db : TranscodeDatabase) (r : TranscodeRecord)
    (hs : r.success = false) :
    (addTranscodeRecord db r).errors r.originalPath = none
    ∧ isFileTranscoded (addTranscodeRecord db r) r.originalPath = false
    ∧ ∀ f : DiscoveredFile, f.path = r.originalPath →
        f ∈ (filterByDatabaseState [f] (addTranscodeRecord db r)).toAnalyze := by
  refine ⟨?_, ?_, ?_⟩
  · unfold addTranscodeRecord
    simp [upd]
  · unfold isFileTranscoded addTranscodeRecord
    simp [upd, hs]
  · intro f hfp
    refine (filterByDatabaseState_toAnalyze_mem _ _ _).mpr ⟨by simp, ?_, ?_⟩
    · unfold isFileTranscoded addTranscodeRecord
      simp [hfp, upd, hs]
    · unfold hasTooManyErrors getFileErrors addTranscodeRecord
      simp [hfp, upd]

theorem claim_C10_witness :
    sampleRecordFailed.success = false ∧
    ((addTranscodeRecord emptyDb sampleRecordFailed).errors
        sampleRecordFailed.originalPath = none
    ∧ isFileTranscoded (addTranscodeRecord emptyDb sampleRecordFailed)
        sampleRecordFailed.originalPath = false
    ∧ ∀ f : DiscoveredFile, f.path = sampleRecordFailed.originalPath →
        f ∈ (filterByDatabaseState [f]
              (addTranscodeRecord emptyDb sampleRecordFailed)).toAnalyze) :=
  ⟨rfl, claim_C10 emptyDb sampleRecordFailed rfl⟩

/-- C8: after setAnalysisRecord, getCachedAnalysis for the same path returns
the stored record exactly when the current (size, mtime) of the file equals
the stored pair, and returns none when the stat fails or either component
differs; a path with no stored record is always a miss. -/
theorem claim_C8 (db : AnalysisDatabase)
    (fileId : String → Option (Nat × String)) (record : AnalysisRecord) :
    (getCachedAnalysis (setAnalysisRecord db record) fileId record.path =
      match fileId record.path with
      | none => none
      | some (size, mtime) =>
        if record.fileSize = size ∧ record.fileMtime = mtime then some record
        else none)
    ∧ (∀ p, db.records p = none → getCachedAnalysis db fileId p = none) := by
  constructor
  · unfold getCachedAnalysis setAnalysisRecord
    simp only [upd_same]
    cases h : fileId record.path with
    | none => rfl
    | some sm =>
      obtain ⟨size, mtime⟩ := sm
      by_cases hv : record.fileSize = size ∧ record.fileMtime = mtime
      · simp [isAnalysisCacheValid, hv.1, hv.2, hv]
      · have : isAnalysisCacheValid record size mtime = false := by
          unfold isAnalysisCacheValid
          rcases not_and_or.mp hv with h1 | h1 <;> simp [h1]
        simp [this, hv]
  · intro p hp
    unfold getCachedAnalysis
    simp [hp]

theorem claim_C8_witness :
    getCachedAnalysis (setAnalysisRecord emptyAnalysisDb sampleAnalysisA)
        (fun p => if p = samplePathA then some (1000, "2026-01-01T00:00:00Z") else none)
        sampleAnalysisA.path =
      (match (fun p => if p = samplePathA then some (1000, "2026-01-01T00:00:00Z") else none)
          sampleAnalysisA.path with
      | none => none
      | some (size, mtime) =>
        if sampleAnalysisA.fileSize = size ∧ sampleAnalysisA.fileMtime = mtime then
          some sampleAnalysisA
        else none)
    ∧ (∀ p, emptyAnalysisDb.records p = none →
        getCachedAnalysis emptyAnalysisDb
          (fun p => if p = samplePathA then some (1000, "2026-01-01T00:00:00Z") else none)
          p = none) :=
  claim_C8 emptyAnalysisDb
    (fun p => if p = samplePathA then some (1000, "2026-01-01T00:00:00Z") else none)
    sampleAnalysisA

theorem natLogAux_spec (b : Nat) (hb : 2 ≤ b) :
    ∀ fuel n, 1 ≤ n → n ≤ fuel →
      b ^ natLogAux b fuel n ≤ n ∧ n < b ^ (natLogAux b fuel n + 1) := by
  intro fuel
  induction fuel with
  | zero => intro n h1 h2; omega
  | succ f ih =>
    intro n h1 h2
    by_cases hbn : b ≤ n
    · have hq1 : 1 ≤ n / b := (Nat.one_le_div_iff (by omega)).mpr hbn
      have hlt : n / b < n := Nat.div_lt_self (by omega) (by omega)
      obtain ⟨ih1, ih2⟩ := ih (n / b) hq1 (by omega)
      have heq : natLogAux b (f + 1) n = natLogAux b f (n / b) + 1 := by
        simp [natLogAux, hbn]
      rw [heq]
      constructor
      · calc b ^ (natLogAux b f (n / b) + 1)
            = b * b ^ natLogAux b f (n / b) := by rw [pow_succ]; ring
          _ ≤ b * (n / b) := Nat.mul_le_mul_left b ih1
          _ ≤ n := by
              have := Nat.div_mul_le_self n b
              calc b * (n / b) = n / b * b := by ring
                _ ≤ n := Nat.div_mul_le_self n b
      · have hmod := Nat.div_add_mod n b
        have hmlt : n % b < b := Nat.mod_lt n (by omega)
        calc n = b * (n / b) + n % b := hmod.symm
          _ < b * (n / b) + b := by omega
          _ = b * (n / b + 1) := by ring
          _ ≤ b * b ^ (natLogAux b f (n / b) + 1) := Nat.mul_le_mul_left b ih2
          _ = b ^ (natLogAux b f (n / b) + 1 + 1) := by rw [pow_succ]; ring
    · have heq : natLogAux b (f + 1) n = 0 := by simp [natLogAux, hbn]
      rw [heq]
      constructor
      · simpa using h1
      · have hb2 : n < b := by omega
        simpa [pow_succ] using hb2

theorem natLogF_spec (b n : Nat) (hb : 2 ≤ b) (hn : 1 ≤ n) :
    b ^ natLogF b n ≤ n ∧ n < b ^ (natLogF b n + 1) :=
  natLogAux_spec b hb n n hn le_rfl

theorem qpow_eq_zpow (q : ℚ) (e : ℤ) : qpow q e = q ^ e := by
  cases e with
  | ofNat n => simp [qpow]
  | negSucc n => simp [qpow, zpow_negSucc]

theorem floorLogB_def (b : Nat) (q : ℚ) :
    floorLogB b q =
      if qpow (b : ℚ) ((natLogF b q.num.natAbs : ℤ) - (natLogF b q.den : ℤ)) ≤ q
      then (natLogF b q.num.natAbs : ℤ) - (natLogF b q.den : ℤ)
      else (natLogF b q.num.natAbs : ℤ) - (natLogF b q.den : ℤ) - 1 := rfl

theorem floorLogB_spec (b : Nat) (q : ℚ) (hb : 2 ≤ b) (hq : 0 < q) :
    (b : ℚ) ^ floorLogB b q ≤ q ∧ q < (b : ℚ) ^ (floorLogB b q + 1) := by
  have hnum : 0 < q.num := Rat.num_pos.mpr hq
  have ha : 1 ≤ q.num.natAbs := by omega
  have hd : 1 ≤ q.den := q.den_pos
  obtain ⟨ha1, ha2⟩ := natLogF_spec b q.num.natAbs hb ha
  obtain ⟨hd1, hd2⟩ := natLogF_spec b q.den hb hd
  have hb0 : (0 : ℚ) < (b : ℚ) := by exact_mod_cast (by omega : 0 < b)
  have hb1 : (1 : ℚ) ≤ (b : ℚ) := by exact_mod_cast (by omega : 1 ≤ b)
  have hbne : (b : ℚ) ≠ 0 := ne_of_gt hb0
  have hA : ((q.num.natAbs : ℚ)) = (q.num : ℚ) := by
    rw [Int.cast_natAbs]
    exact_mod_cast abs_of_nonneg hnum.le
  have hqeq : q = (q.num.natAbs : ℚ) / (q.den : ℚ) := by
    rw [hA, Rat.num_div_den]
  have hD0 : (0 : ℚ) < (q.den : ℚ) := by exact_mod_cast hd
  have hA0 : (0 : ℚ) < (q.num.natAbs : ℚ) := by exact_mod_cast ha
  rw [floorLogB_def, qpow_eq_zpow]
  set la := natLogF b q.num.natAbs with hla
  set ld := natLogF b q.den with hld
  have hA1 : (b : ℚ) ^ (la : ℤ) ≤ (q.num.natAbs : ℚ) := by
    rw [zpow_natCast]; exact_mod_cast ha1
  have hA2 : (q.num.natAbs : ℚ) < (b : ℚ) ^ ((la : ℤ) + 1) := by
    have : ((la : ℤ) + 1) = ((la + 1 : ℕ) : ℤ) := by push_cast; ring
    rw [this, zpow_natCast]; exact_mod_cast ha2
  have hD1 : (b : ℚ) ^ ((ld : ℤ)) ≤ (q.den : ℚ) := by
    rw [zpow_natCast]; exact_mod_cast hd1
  have hD2 : (q.den : ℚ) < (b : ℚ) ^ ((ld : ℤ) + 1) := by
    have : ((ld : ℤ) + 1) = ((ld + 1 : ℕ) : ℤ) := by push_cast; ring
    rw [this, zpow_natCast]; exact_mod_cast hd2
  have hlow : (b : ℚ) ^ ((la : ℤ) - (ld : ℤ) - 1) < q := by
    rw [hqeq]
    rw [show (la : ℤ) - (ld : ℤ) - 1 = (la : ℤ) - ((ld : ℤ) + 1) by ring,
      zpow_sub₀ hbne]
    rw [div_lt_div_iff₀ (zpow_pos hb0 _) hD0]
    calc (b : ℚ) ^ (la : ℤ) * (q.den : ℚ)
        ≤ (q.num.natAbs : ℚ) * (q.den : ℚ) :=
          mul_le_mul_of_nonneg_right hA1 hD0.le
      _ < (q.num.natAbs : ℚ) * (b : ℚ) ^ ((ld : ℤ) + 1) :=
          (mul_lt_mul_left hA0).mpr hD2
  have hupp : q < (b : ℚ) ^ ((la : ℤ) - (ld : ℤ) + 1) := by
    rw [hqeq]
    rw [show (la : ℤ) - (ld : ℤ) + 1 = ((la : ℤ) + 1) - (ld : ℤ) by ring,
      zpow_sub₀ hbne]
    rw [div_lt_div_iff₀ hD0 (zpow_pos hb0 _)]
    calc (q.num.natAbs : ℚ) * (b : ℚ) ^ (ld : ℤ)
        < (b : ℚ) ^ ((la : ℤ) + 1) * (b : ℚ) ^ (ld : ℤ) :=
          (mul_lt_mul_right (zpow_pos hb0 _)).mpr hA2
      _ ≤ (b : ℚ) ^ ((la : ℤ) + 1) * (q.den : ℚ) :=
          mul_le_mul_of_nonneg_left hD1 (zpow_pos hb0 _).le
  split_ifs with hif
  · exact ⟨hif, hupp⟩
  · constructor
    · exact hlow.le
    · rw [show (la : ℤ) - (ld : ℤ) - 1 + 1 = (la : ℤ) - (ld : ℤ) by ring]
      exact lt_of_not_ge (fun hge => hif hge)

theorem floorLogB_eq_of (b : Nat) (q : ℚ) (e : ℤ) (hb : 2 ≤ b) (hq : 0 < q)
    (h1 : (b : ℚ) ^ e ≤ q) (h2 : q < (b : ℚ) ^ (e + 1)) : floorLogB b q = e := by
  obtain ⟨g1, g2⟩ := floorLogB_spec b q hb hq
  have hbQ : (1 : ℚ) < (b : ℚ) := by exact_mod_cast (by omega : 1 < b)
  by_contra hne
  rcases lt_or_gt_of_ne hne with hlt | hgt
  · have : (b : ℚ) ^ (floorLogB b q + 1) ≤ (b : ℚ) ^ e :=
      zpow_le_zpow_right₀ hbQ.le (by omega)
    linarith
  · have : (b : ℚ) ^ (e + 1) ≤ (b : ℚ) ^ (floorLogB b q) :=
      zpow_le_zpow_right₀ hbQ.le (by omega)
    linarith

theorem roundNearestEven_def (q : ℚ) :
    roundNearestEven q =
      if q - ⌊q⌋ < 1/2 then ⌊q⌋
      else if (1 : ℚ)/2 < q - ⌊q⌋ then ⌊q⌋ + 1
      else if ⌊q⌋ % 2 = 0 then ⌊q⌋ else ⌊q⌋ + 1 := rfl

theorem roundNearestEven_abs_le (q : ℚ) : |(roundNearestEven q : ℚ) - q| ≤ 1/2 := by
  have h1 : (⌊q⌋ : ℚ) ≤ q := Int.floor_le q
  have h2 : q < ⌊q⌋ + 1 := Int.lt_floor_add_one q
  rw [roundNearestEven_def]
  split_ifs with ha hb hc
  · rw [abs_le]; constructor <;> linarith
  · push_cast; rw [abs_le]; constructor <;> linarith
  · rw [abs_le]; constructor <;> linarith
  · push_cast; rw [abs_le]; constructor <;> linarith

theorem roundNearestEven_intCast (n : ℤ) : roundNearestEven (n : ℚ) = n := by
  rw [roundNearestEven_def, Int.floor_intCast]
  rw [if_pos (by norm_num)]

theorem roundDouble_pos_eq (q : ℚ) (hq : 0 < q) :
    roundDouble q =
      (roundNearestEven (q * qpow 2 (52 - floorLogB 2 q)) : ℚ) *
        qpow 2 (floorLogB 2 q - 52) := by
  unfold roundDouble
  rw [if_neg (not_le.mpr hq)]

theorem cast_two_q : ((2 : ℕ) : ℚ) = 2 := by norm_num

theorem floorLogB2_spec (q : ℚ) (hq : 0 < q) :
    (2 : ℚ) ^ floorLogB 2 q ≤ q ∧ q < (2 : ℚ) ^ (floorLogB 2 q + 1) := by
  have := floorLogB_spec 2 q le_rfl hq
  rwa [cast_two_q] at this

theorem roundDouble_abs_le (q : ℚ) (hq : 0 ≤ q) :
    |roundDouble q - q| ≤ q / 2 ^ 53 := by
  rcases eq_or_lt_of_le hq with h0 | hpos
  · rw [← h0]
    simp [roundDouble]
  set e := floorLogB 2 q with he
  set y := q * qpow 2 (52 - e) with hy
  obtain ⟨g1, g2⟩ := floorLogB2_spec q hpos
  have h2ne : (2 : ℚ) ≠ 0 := two_ne_zero
  have hyq : y * (2 : ℚ) ^ (e - 52) = q := by
    rw [hy, qpow_eq_zpow, mul_assoc, ← zpow_add₀ h2ne]
    norm_num
  have hr := roundNearestEven_abs_le y
  have hzpos : (0 : ℚ) < (2 : ℚ) ^ (e - 52) := zpow_pos two_pos _
  have hkey : |roundDouble q - q| = |(roundNearestEven y : ℚ) - y| * (2 : ℚ) ^ (e - 52) := by
    rw [roundDouble_pos_eq q hpos, ← he, ← hy, qpow_eq_zpow]
    rw [← hyq]
    rw [← sub_mul, abs_mul, abs_of_pos hzpos]
  rw [hkey]
  calc |(roundNearestEven y : ℚ) - y| * (2 : ℚ) ^ (e - 52)
      ≤ 1/2 * (2 : ℚ) ^ (e - 52) := mul_le_mul_of_nonneg_right hr hzpos.le
    _ = (2 : ℚ) ^ (e - 53) := by
        rw [show (e : ℤ) - 53 = -1 + (e - 52) by ring, zpow_add₀ h2ne]
        norm_num
    _ = (2 : ℚ) ^ e * (2 : ℚ) ^ (-53 : ℤ) := by
        rw [← zpow_add₀ h2ne]; ring_nf
    _ ≤ q * (2 : ℚ) ^ (-53 : ℤ) :=
        mul_le_mul_of_nonneg_right g1 (zpow_pos two_pos _).le
    _ = q / 2 ^ 53 := by
        rw [zpow_neg, div_eq_mul_inv]
        norm_num

theorem roundDouble_nonneg (q : ℚ) : 0 ≤ roundDouble q := by
  by_cases h : q ≤ 0
  · simp [roundDouble, h]
  · have hq : 0 < q := not_le.mp h
    have := roundDouble_abs_le q hq.le
    rw [abs_le] at this
    have hd : q / 2 ^ 53 < q := by
      apply div_lt_self hq
      norm_num
    linarith [this.1]

theorem roundDouble_pos (q : ℚ) (hq : 0 < q) : 0 < roundDouble q := by
  have := roundDouble_abs_le q hq.le
  rw [abs_le] at this
  have hd : q / 2 ^ 53 < q := div_lt_self hq (by norm_num)
  linarith [this.1]

theorem roundDouble_le_twice (q : ℚ) (hq : 0 ≤ q) : roundDouble q ≤ 2 * q := by
  have := roundDouble_abs_le q hq
  rw [abs_le] at this
  have hd : q / 2 ^ 53 ≤ q := by
    apply div_le_self hq
    norm_num
  linarith [this.2]

theorem roundDouble_ge_half (q : ℚ) (hq : 0 ≤ q) : q / 2 ≤ roundDouble q := by
  have := roundDouble_abs_le q hq
  rw [abs_le] at this
  have hd : q / 2 ^ 53 ≤ q / 2 := by gcongr <;> norm_num
  linarith [this.1]

theorem zpow52_eq (x : ℚ) (h : x = 2) : x ^ (52 : ℤ) = ((2 ^ 52 : ℤ) : ℚ) := by
  subst h
  norm_num

theorem zpow53_eq (x : ℚ) (h : x = 2) : x ^ (53 : ℤ) = ((2 ^ 53 : ℤ) : ℚ) := by
  subst h
  norm_num

theorem isDouble_roundDouble (q : ℚ) (hq : 0 < q) : IsDouble (roundDouble q) := by
  have heq := roundDouble_pos_eq q hq
  obtain ⟨g1, g2⟩ := floorLogB2_spec q hq
  set e := floorLogB 2 q with he
  set y := q * qpow 2 (52 - e) with hy
  have h2ne : (2 : ℚ) ≠ 0 := two_ne_zero
  have hy1 : (2 : ℚ) ^ (52 : ℤ) ≤ y := by
    rw [hy, qpow_eq_zpow]
    calc (2 : ℚ) ^ (52 : ℤ) = (2 : ℚ) ^ e * (2 : ℚ) ^ (52 - e) := by
          rw [← zpow_add₀ h2ne]; ring_nf
      _ ≤ q * (2 : ℚ) ^ (52 - e) :=
          mul_le_mul_of_nonneg_right g1 (zpow_pos two_pos _).le
  have hy2 : y < (2 : ℚ) ^ (53 : ℤ) := by
    rw [hy, qpow_eq_zpow]
    calc q * (2 : ℚ) ^ (52 - e)
        < (2 : ℚ) ^ (e + 1) * (2 : ℚ) ^ (52 - e) :=
          (mul_lt_mul_right (zpow_pos two_pos _)).mpr g2
      _ = (2 : ℚ) ^ (53 : ℤ) := by rw [← zpow_add₀ h2ne]; ring_nf
  set m := roundNearestEven y with hm
  have hr := roundNearestEven_abs_le y
  rw [abs_le] at hr
  have hm1 : (2 ^ 52 : ℤ) ≤ m := by
    have h52 := zpow52_eq (2 : ℚ) rfl
    have : ((2 ^ 52 : ℤ) : ℚ) - 1 / 2 ≤ (m : ℚ) := by
      rw [← h52]; linarith [hr.1]
    have h2 : ((2 ^ 52 - 1 : ℤ) : ℚ) < (m : ℚ) := by push_cast; linarith
    have h3 : (2 ^ 52 - 1 : ℤ) < m := by exact_mod_cast h2
    omega
  have hm2 : m ≤ (2 ^ 53 : ℤ) := by
    have h53 := zpow53_eq (2 : ℚ) rfl
    have : (m : ℚ) ≤ ((2 ^ 53 : ℤ) : ℚ) + 1 / 2 := by
      rw [← h53]; linarith [hr.2]
    have h2 : (m : ℚ) < ((2 ^ 53 + 1 : ℤ) : ℚ) := by push_cast; linarith
    have h3 : m < (2 ^ 53 + 1 : ℤ) := by exact_mod_cast h2
    omega
  rcases lt_or_eq_of_le hm2 with hlt | heq2
  · exact ⟨m, e, hm1, hlt, heq⟩
  · refine ⟨2 ^ 52, e + 1, le_refl _, by norm_num, ?_⟩
    rw [heq, heq2]
    rw [qpow_eq_zpow, qpow_eq_zpow]
    push_cast
    rw [show ((e : ℤ) + 1 - 52) = 1 + (e - 52) by ring, zpow_add₀ h2ne, zpow_one]
    ring

theorem isDouble_pos (x : ℚ) (h : IsDouble x) : 0 < x := by
  obtain ⟨m, e, hm1, _, hx⟩ := h
  have hmQ : (0 : ℚ) < (m : ℚ) := by
    have : (0 : ℤ) < m := by positivity
    exact_mod_cast this
  rw [hx, qpow_eq_zpow]
  exact mul_pos hmQ (zpow_pos two_pos _)

theorem roundDouble_of_isDouble (x : ℚ) (h : IsDouble x) : roundDouble x = x := by
  obtain ⟨m, e, hm1, hm2, hx⟩ := h
  have hxpos : 0 < x := isDouble_pos x ⟨m, e, hm1, hm2, hx⟩
  have h2ne : (2 : ℚ) ≠ 0 := two_ne_zero
  have h52 := zpow52_eq (2 : ℚ) rfl
  have h53 := zpow53_eq (2 : ℚ) rfl
  have hmQ1 : (2 : ℚ) ^ (52 : ℤ) ≤ (m : ℚ) := by
    rw [h52]; exact_mod_cast hm1
  have hmQ2 : (m : ℚ) < (2 : ℚ) ^ (53 : ℤ) := by
    rw [h53]; exact_mod_cast hm2
  have hb1 : (2 : ℚ) ^ e ≤ x := by
    rw [hx, qpow_eq_zpow]
    calc (2 : ℚ) ^ e = (2 : ℚ) ^ (52 : ℤ) * (2 : ℚ) ^ (e - 52) := by
          rw [← zpow_add₀ h2ne]; ring_nf
      _ ≤ (m : ℚ) * (2 : ℚ) ^ (e - 52) :=
          mul_le_mul_of_nonneg_right hmQ1 (zpow_pos two_pos _).le
  have hb2 : x < (2 : ℚ) ^ (e + 1) := by
    rw [hx, qpow_eq_zpow]
    calc (m : ℚ) * (2 : ℚ) ^ (e - 52)
        < (2 : ℚ) ^ (53 : ℤ) * (2 : ℚ) ^ (e - 52) :=
          (mul_lt_mul_right (zpow_pos two_pos _)).mpr hmQ2
      _ = (2 : ℚ) ^ (e + 1) := by rw [← zpow_add₀ h2ne]; ring_nf
  have hfE : floorLogB 2 x = e := by
    apply floorLogB_eq_of 2 x e le_rfl hxpos
    · rw [cast_two_q]; exact hb1
    · rw [cast_two_q]; exact hb2
  rw [roundDouble_pos_eq x hxpos, hfE]
  have hxy : x * qpow 2 (52 - e) = (m : ℚ) := by
    rw [hx, qpow_eq_zpow, qpow_eq_zpow, mul_assoc, ← zpow_add₀ h2ne]
    norm_num
  rw [hxy, roundNearestEven_intCast, ← hx]

theorem roundDouble_intCast (n : ℤ) (h0 : 0 ≤ n) (h1 : n < 2 ^ 53) :
    roundDouble (n : ℚ) = n := by
  rcases eq_or_lt_of_le h0 with h | h
  · rw [← h]
    norm_num [roundDouble]
  · apply roundDouble_of_isDouble
    have ha1 : 1 ≤ n.toNat := by omega
    obtain ⟨g1, g2⟩ := natLogF_spec 2 n.toNat le_rfl ha1
    set L := natLogF 2 n.toNat with hL
    have hL52 : L ≤ 52 := by
      by_contra hc
      have hbig : (2 : ℕ) ^ 53 ≤ 2 ^ L := Nat.pow_le_pow_right (by norm_num) (by omega)
      have h2 : (2 : ℕ) ^ 53 ≤ n.toNat := le_trans hbig g1
      have h3 : (2 : ℕ) ^ 53 = 9007199254740992 := by norm_num
      have h4 : (2 : ℤ) ^ 53 = 9007199254740992 := by norm_num
      omega
    have hn1 : (2 : ℤ) ^ L ≤ n := by
      have h2 : ((2 ^ L : ℕ) : ℤ) ≤ ((n.toNat : ℕ) : ℤ) := by exact_mod_cast g1
      push_cast at h2
      rwa [Int.toNat_of_nonneg h.le] at h2
    have hn2 : n < (2 : ℤ) ^ (L + 1) := by
      have h2 : ((n.toNat : ℕ) : ℤ) < ((2 ^ (L + 1) : ℕ) : ℤ) := by exact_mod_cast g2
      push_cast at h2
      rwa [Int.toNat_of_nonneg h.le] at h2
    refine ⟨n * 2 ^ (52 - L), (L : ℤ), ?_, ?_, ?_⟩
    · calc (2 : ℤ) ^ 52 = 2 ^ L * 2 ^ (52 - L) := by
            rw [← pow_add]
            congr 1
            omega
        _ ≤ n * 2 ^ (52 - L) :=
            mul_le_mul_of_nonneg_right hn1 (by positivity)
    · calc n * 2 ^ (52 - L) < 2 ^ (L + 1) * 2 ^ (52 - L) :=
            (mul_lt_mul_right (by positivity)).mpr hn2
        _ = 2 ^ 53 := by rw [← pow_add]; congr 1; omega
    · have hval : ((n * 2 ^ (52 - L) : ℤ) : ℚ) * qpow 2 ((L : ℤ) - 52) = (n : ℚ) := by
        rw [qpow_eq_zpow]
        push_cast
        rw [show ((2 : ℚ) ^ (52 - L : ℕ)) = (2 : ℚ) ^ (((52 - L : ℕ)) : ℤ) from
          (zpow_natCast _ _).symm]
        rw [Nat.cast_sub hL52]
        rw [mul_assoc, ← zpow_add₀ two_ne_zero]
        have hexp : ((52 : ℕ) : ℤ) - (L : ℤ) + ((L : ℤ) - 52) = 0 := by push_cast; ring
        rw [hexp, zpow_zero, mul_one]
      exact hval.symm

theorem abs_floor_diff_le_one (a b : ℚ) (h : |a - b| < 1) : |⌊a⌋ - ⌊b⌋| ≤ 1 := by
  obtain ⟨h1, h2⟩ := abs_sub_lt_iff.mp h
  have hA : ⌊a⌋ ≤ ⌊b⌋ + 1 := by
    have h3 : ⌊a⌋ ≤ ⌊b + 1⌋ := Int.floor_le_floor (by linarith)
    simpa [Int.floor_add_one] using h3
  have hB : ⌊b⌋ ≤ ⌊a⌋ + 1 := by
    have h3 : ⌊b⌋ ≤ ⌊a + 1⌋ := Int.floor_le_floor (by linarith)
    simpa [Int.floor_add_one] using h3
  rw [abs_le]
  omega

theorem targetWidth_props (w h mh : Nat) (hw : 0 < w) (hh : 0 < h)
    (hwle : w ≤ 65536) (hmle : mh ≤ 65536) :
    roundDouble (2 * (⌊roundDouble
        (roundDouble ((mh : ℚ) * roundDouble ((w : ℚ) / (h : ℚ))) / 2)⌋ : ℚ)) =
      ((2 * ⌊roundDouble
        (roundDouble ((mh : ℚ) * roundDouble ((w : ℚ) / (h : ℚ))) / 2)⌋ : ℤ) : ℚ)
    ∧ |2 * ⌊roundDouble
          (roundDouble ((mh : ℚ) * roundDouble ((w : ℚ) / (h : ℚ))) / 2)⌋ -
        2 * ⌊(mh : ℚ) * (w : ℚ) / (h : ℚ) / 2⌋| ≤ 2 := by
  set r : ℚ := (w : ℚ) / (h : ℚ) with hrdef
  set t1 := roundDouble r with ht1
  set t2 := roundDouble ((mh : ℚ) * t1) with ht2
  set t3 := roundDouble (t2 / 2) with ht3
  have hhQ : (1 : ℚ) ≤ (h : ℚ) := by exact_mod_cast hh
  have hwQ : (0 : ℚ) < (w : ℚ) := by exact_mod_cast hw
  have hwQle : (w : ℚ) ≤ 65536 := by exact_mod_cast hwle
  have hmQle : (mh : ℚ) ≤ 65536 := by exact_mod_cast hmle
  have hmQ0 : (0 : ℚ) ≤ (mh : ℚ) := by positivity
  have hr0 : 0 < r := div_pos hwQ (by linarith)
  have hrle : r ≤ 65536 := le_trans (div_le_self hwQ.le hhQ) hwQle
  have e1 := roundDouble_abs_le r hr0.le
  rw [abs_le] at e1
  have hb1 : r / 2 ^ 53 ≤ 1 / 2 ^ 37 := by
    calc r / 2 ^ 53 ≤ 65536 / 2 ^ 53 := by gcongr
      _ = 1 / 2 ^ 37 := by norm_num
  have ht10 : 0 ≤ t1 := roundDouble_nonneg r
  have ht1le : t1 ≤ 65537 := by
    have : (1 : ℚ) / 2 ^ 37 ≤ 1 := by norm_num
    linarith [e1.2]
  have hP0 : (0 : ℚ) ≤ (mh : ℚ) * t1 := mul_nonneg hmQ0 ht10
  have hPle : (mh : ℚ) * t1 ≤ 65536 * 65537 :=
    mul_le_mul hmQle ht1le ht10 (by norm_num)
  have hPE : |(mh : ℚ) * t1 - (mh : ℚ) * r| ≤ 1 / 2 ^ 21 := by
    rw [← mul_sub, abs_mul, abs_of_nonneg hmQ0]
    have habs : |t1 - r| ≤ 1 / 2 ^ 37 := by
      rw [abs_le]
      exact ⟨by linarith [e1.1], by linarith [e1.2]⟩
    calc (mh : ℚ) * |t1 - r| ≤ 65536 * (1 / 2 ^ 37) :=
          mul_le_mul hmQle habs (abs_nonneg _) (by norm_num)
      _ = 1 / 2 ^ 21 := by norm_num
  have e2 := roundDouble_abs_le ((mh : ℚ) * t1) hP0
  rw [abs_le] at e2
  have hb2 : (mh : ℚ) * t1 / 2 ^ 53 ≤ 1 / 2 ^ 20 := by
    calc (mh : ℚ) * t1 / 2 ^ 53 ≤ 65536 * 65537 / 2 ^ 53 := by gcongr
      _ ≤ 1 / 2 ^ 20 := by norm_num
  have ht20 : 0 ≤ t2 := roundDouble_nonneg _
  have ht2le : t2 ≤ 65536 * 65537 + 1 := by
    have : (1 : ℚ) / 2 ^ 20 ≤ 1 := by norm_num
    linarith [e2.2]
  have e3 := roundDouble_abs_le (t2 / 2) (by linarith)
  rw [abs_le] at e3
  have hb3 : t2 / 2 / 2 ^ 53 ≤ 1 / 2 ^ 20 := by
    calc t2 / 2 / 2 ^ 53 ≤ (65536 * 65537 + 1) / 2 / 2 ^ 53 := by gcongr
      _ ≤ 1 / 2 ^ 20 := by norm_num
  rw [abs_le] at hPE
  have hkey : |t3 - (mh : ℚ) * r / 2| < 1 := by
    rw [abs_lt]
    constructor <;> [skip; skip] <;>
      · have h1 := e3.1
        have h2 := e3.2
        have h3 := e2.1
        have h4 := e2.2
        have h5 := hPE.1
        have h6 := hPE.2
        linarith
  have hE : (mh : ℚ) * (w : ℚ) / (h : ℚ) = (mh : ℚ) * r := mul_div_assoc _ _ _
  have hfl : |⌊t3⌋ - ⌊(mh : ℚ) * r / 2⌋| ≤ 1 := abs_floor_diff_le_one _ _ hkey
  have ht30 : 0 ≤ t3 := roundDouble_nonneg _
  have hf0 : 0 ≤ ⌊t3⌋ := Int.floor_nonneg.mpr ht30
  have ht3le : t3 ≤ 65536 * 65537 / 2 + 1 + 1 := by
    have : (1 : ℚ) / 2 ^ 20 ≤ 1 := by norm_num
    have h2 : t2 / 2 ≤ (65536 * 65537 + 1) / 2 := by linarith
    linarith [e3.2]
  have hfle : ⌊t3⌋ ≤ 2147516417 := by
    have hc : t3 ≤ ((2147516417 : ℤ) : ℚ) := by push_cast; linarith
    have := Int.floor_le_floor hc
    simpa using this
  constructor
  · have hcast : 2 * (⌊t3⌋ : ℚ) = ((2 * ⌊t3⌋ : ℤ) : ℚ) := by push_cast; ring
    rw [hcast]
    exact roundDouble_intCast _ (by omega) (by omega)
  · rw [hE]
    rw [abs_le] at hfl ⊢
    omega

set_option maxRecDepth 40000 in
/-- C4 counterexample: two discrepancies with the original claim at
concrete inputs.  With media type other and an explicit max-height
override, calculateTargetResolution scales instead of returning null
(the override is assigned before the media-type switch).  And the width
the program computes is the binary64 evaluation of the formula, which at
1242x1080 capped to 720 yields 826 while the claim's exact rational
formula floor((maxHeight * width / height) / 2) * 2 yields 828. -/
theorem claim_C4_counterexample :
    calculateTargetResolution 1920 1080 MediaType.other sampleConfig (some 720) =
      some (1280, 720)
    ∧ calculateTargetResolution 1242 1080 MediaType.tv sampleConfig none =
      some (826, 720)
    ∧ (2 * ⌊((720 : ℚ) * 1242 / 1080 / 2)⌋ : ℤ) = 828 := by
  refine ⟨by decide, by decide, by decide⟩

/-- C4 corrected: for positive dimensions and ceilings in binary64-exact
range (at most 65536), calculateTargetResolution returns none when no
override is given and the media type is other, or when the source height
does not exceed the applicable maximum height (an explicit override
applies even for media type other); otherwise it returns the applicable
maximum height — so the returned height never exceeds the ceiling and the
source is never upscaled — together with an even integer width computed
in binary64 arithmetic that is within 2 of the exact aspect-preserving
formula floor((maxHeight * width / height) / 2) * 2 (the two can differ,
as the counterexample shows). -/
theorem claim_C4 (width height : Nat) (mediaType : MediaType) (config : Config)
    (ov : Option Nat) (hw : 0 < width) (hh : 0 < height) (hwle : width ≤ 65536)
    (hmle : ∀ mh, applicableMaxHeight mediaType config ov = some mh → mh ≤ 65536) :
    (ov = none → mediaType = .other →
      calculateTargetResolution width height mediaType config ov = none)
    ∧ (∀ maxH, applicableMaxHeight mediaType config ov = some maxH →
        (height ≤ maxH →
          calculateTargetResolution width height mediaType config ov = none)
        ∧ (maxH < height →
            ∃ wI : ℤ,
              calculateTargetResolution width height mediaType config ov =
                some ((wI : ℚ), maxH)
              ∧ 2 ∣ wI
              ∧ |wI - 2 * ⌊(maxH : ℚ) * (width : ℚ) / (height : ℚ) / 2⌋| ≤ 2)) := by
  have hrw : calculateTargetResolution width height mediaType config ov =
      match applicableMaxHeight mediaType config ov with
      | none => none
      | some maxHeight =>
        if height ≤ maxHeight then none
        else some (roundDouble (2 * (⌊roundDouble
            (roundDouble ((maxHeight : ℚ) *
              roundDouble ((width : ℚ) / (height : ℚ))) / 2)⌋ : ℚ)),
          maxHeight) := rfl
  constructor
  · rintro rfl rfl
    rw [hrw]
    rfl
  · intro maxH hmax
    have hrw2 : calculateTargetResolution width height mediaType config ov =
        if height ≤ maxH then none
        else some (roundDouble (2 * (⌊roundDouble
            (roundDouble ((maxH : ℚ) *
              roundDouble ((width : ℚ) / (height : ℚ))) / 2)⌋ : ℚ)),
          maxH) := by
      rw [hrw, hmax]
    constructor
    · intro hle
      rw [hrw2, if_pos hle]
    · intro hlt
      obtain ⟨hint, hclose⟩ :=
        targetWidth_props width height maxH hw hh hwle (hmle maxH hmax)
      refine ⟨2 * ⌊roundDouble (roundDouble ((maxH : ℚ) *
          roundDouble ((width : ℚ) / (height : ℚ))) / 2)⌋, ?_, ?_, ?_⟩
      · rw [hrw2, if_neg (Nat.not_le.mpr hlt), hint]
      · exact dvd_mul_right 2 _
      · exact hclose

theorem claim_C4_witness :
    0 < 1920 ∧ 0 < 1080 ∧ 1920 ≤ 65536 ∧
    (∀ mh, applicableMaxHeight MediaType.tv sampleConfig none = some mh →
      mh ≤ 65536) ∧
    (((none : Option Nat) = none → MediaType.tv = MediaType.other →
      calculateTargetResolution 1920 1080 MediaType.tv sampleConfig none = none)
    ∧ (∀ maxH, applicableMaxHeight MediaType.tv sampleConfig none = some maxH →
        (1080 ≤ maxH →
          calculateTargetResolution 1920 1080 MediaType.tv sampleConfig none = none)
        ∧ (maxH < 1080 →
            ∃ wI : ℤ,
              calculateTargetResolution 1920 1080 MediaType.tv sampleConfig none =
                some ((wI : ℚ), maxH)
              ∧ 2 ∣ wI
              ∧ |wI - 2 * ⌊(maxH : ℚ) * ((1920 : Nat) : ℚ) /
                  ((1080 : Nat) : ℚ) / 2⌋| ≤ 2))) := by
  have hm : ∀ mh, applicableMaxHeight MediaType.tv sampleConfig none = some mh →
      mh ≤ 65536 := by
    intro mh hmh
    have h720 : applicableMaxHeight MediaType.tv sampleConfig none = some 720 := rfl
    rw [h720] at hmh
    injection hmh with h2
    omega
  exact ⟨by norm_num, by norm_num, by norm_num, hm,
    claim_C4 1920 1080 MediaType.tv sampleConfig none (by norm_num) (by norm_num)
      (by norm_num) hm⟩

theorem digitVal_digitChar {d : Nat} (h : d < 10) : digitVal (digitChar d) = d := by
  interval_cases d <;> rfl

theorem isDigit_digitChar {d : Nat} (h : d < 10) : (digitChar d).isDigit = true := by
  interval_cases d <;> decide

theorem takeWhile_append_all {α} (p : α → Bool) (l r : List α)
    (h : ∀ c ∈ l, p c = true) : (l ++ r).takeWhile p = l ++ r.takeWhile p := by
  induction l with
  | nil => simp
  | cons c cs ih =>
    have hc := h c (by simp)
    simp only [List.cons_append, List.takeWhile_cons, hc, if_true]
    rw [ih fun x hx => h x (by simp [hx])]

theorem dropWhile_append_all {α} (p : α → Bool) (l r : List α)
    (h : ∀ c ∈ l, p c = true) : (l ++ r).dropWhile p = r.dropWhile p := by
  induction l with
  | nil => simp
  | cons c cs ih =>
    have hc := h c (by simp)
    simp only [List.cons_append, List.dropWhile_cons, hc, if_true]
    exact ih fun x hx => h x (by simp [hx])

theorem natDigitsAux_eq (fuel n : Nat) (h : n ≤ fuel) :
    natDigitsAux fuel n = (Nat.digits 10 n).map digitChar := by
  induction fuel generalizing n with
  | zero =>
    have h0 : n = 0 := by omega
    subst h0
    simp [natDigitsAux]
  | succ f ih =>
    by_cases h0 : n = 0
    · subst h0
      simp [natDigitsAux]
    · have hstep : natDigitsAux (f + 1) n =
          digitChar (n % 10) :: natDigitsAux f (n / 10) := by
        simp [natDigitsAux, h0]
      have hdlt : n / 10 < n := Nat.div_lt_self (Nat.pos_of_ne_zero h0) (by norm_num)
      have hdig : Nat.digits 10 n = n % 10 :: Nat.digits 10 (n / 10) :=
        Nat.digits_def' (by norm_num) (Nat.pos_of_ne_zero h0)
      rw [hstep, hdig, List.map_cons, ih (n / 10) (by omega)]

theorem natDigits_eq (n : Nat) :
    natDigits n =
      if n = 0 then ['0'] else ((Nat.digits 10 n).map digitChar).reverse := by
  unfold natDigits
  by_cases h0 : n = 0
  · simp [h0]
  · rw [if_neg h0, if_neg h0, natDigitsAux_eq n n le_rfl]

theorem natDigits_all_digit (n : Nat) : ∀ c ∈ natDigits n, c.isDigit = true := by
  intro c hc
  rw [natDigits_eq] at hc
  by_cases h0 : n = 0
  · simp [h0] at hc
    simp [hc]
  · simp only [h0, if_false, List.mem_reverse, List.mem_map] at hc
    obtain ⟨d, hd, rfl⟩ := hc
    exact isDigit_digitChar (Nat.digits_lt_base (by norm_num) hd)

theorem natDigits_ne_nil (n : Nat) : natDigits n ≠ [] := by
  rw [natDigits_eq]
  by_cases h0 : n = 0
  · simp [h0]
  · simp only [h0, if_false, ne_eq, List.reverse_eq_nil_iff, List.map_eq_nil_iff]
    exact Nat.digits_ne_nil_iff_ne_zero.mpr h0

theorem parseDigitsAcc_nil (acc : Nat) : parseDigitsAcc acc [] = acc := rfl

theorem parseDigitsAcc_cons (acc : Nat) (c : Char) (cs : List Char) :
    parseDigitsAcc acc (c :: cs) = parseDigitsAcc (acc * 10 + digitVal c) cs := rfl

theorem parseDigitsAcc_append (acc : Nat) (l r : List Char) :
    parseDigitsAcc acc (l ++ r) = parseDigitsAcc (parseDigitsAcc acc l) r := by
  induction l generalizing acc with
  | nil => rfl
  | cons c cs ih => rw [List.cons_append, parseDigitsAcc_cons, ih, parseDigitsAcc_cons]

theorem parseDigitsAcc_shift (acc : Nat) (l : List Char) :
    parseDigitsAcc acc l = acc * 10 ^ l.length + parseDigitsAcc 0 l := by
  induction l generalizing acc with
  | nil => simp [parseDigitsAcc_nil]
  | cons c cs ih =>
    rw [parseDigitsAcc_cons, parseDigitsAcc_cons, ih (acc * 10 + digitVal c),
      ih (0 * 10 + digitVal c)]
    simp [List.length_cons]
    ring

theorem parseDigitsAcc_mapped (L : List Nat) (hL : ∀ d ∈ L, d < 10) :
    parseDigitsAcc 0 ((L.map digitChar).reverse) = Nat.ofDigits 10 L := by
  induction L with
  | nil => rfl
  | cons d T ih =>
    have hd : d < 10 := hL d (by simp)
    rw [List.map_cons, List.reverse_cons, parseDigitsAcc_append,
      ih fun x hx => hL x (by simp [hx]), Nat.ofDigits_cons]
    rw [parseDigitsAcc_cons, parseDigitsAcc_nil, digitVal_digitChar hd]
    ring

theorem parseDigitsAcc_natDigits (n : Nat) : parseDigitsAcc 0 (natDigits n) = n := by
  rw [natDigits_eq]
  by_cases h0 : n = 0
  · simp [h0, parseDigitsAcc_cons, parseDigitsAcc_nil, digitVal]
  · rw [if_neg h0,
      parseDigitsAcc_mapped (Nat.digits 10 n) fun d hd => Nat.digits_lt_base (by norm_num) hd,
      Nat.ofDigits_digits]

theorem parseDigitsAcc_zeros (acc k : Nat) :
    parseDigitsAcc acc (List.replicate k '0') = acc * 10 ^ k := by
  induction k generalizing acc with
  | zero => simp [parseDigitsAcc_nil]
  | succ k ih =>
    rw [List.replicate_succ, parseDigitsAcc_cons, ih]
    have h0 : digitVal '0' = 0 := rfl
    rw [h0]
    ring

theorem natDigits_length_le {n s : Nat} (hn : n ≠ 0) (h : n < 10 ^ s) :
    (natDigits n).length ≤ s := by
  rw [natDigits_eq]
  rw [if_neg hn, List.length_reverse, List.length_map,
    Nat.digits_len 10 n (by norm_num) hn]
  have := (Nat.lt_pow_iff_log_lt (by norm_num : 1 < 10) hn).mp h
  omega

theorem toList_mk_append (L : List Char) (u : String) :
    (String.mk L ++ u).toList = L ++ u.toList := rfl

theorem toList_eq_nil (u : String) (h : u.toList = []) : u = "" := by
  obtain ⟨d⟩ := u
  cases h
  rfl

theorem isEmpty_false_of_ne_nil {α} {l : List α} (h : l ≠ []) : l.isEmpty = false := by
  cases l with
  | nil => exact absurd rfl h
  | cons a t => rfl

theorem not_isEmpty_of_ne_nil {α} {l : List α} (h : l ≠ []) : ¬l.isEmpty = true := by
  rw [isEmpty_false_of_ne_nil h]
  simp

theorem parseAfterInt_nil (intDs : List Char) :
    parseAfterInt intDs [] = (parseDigitsAcc 0 intDs, 0, []) := rfl

theorem parseAfterInt_cons (intDs : List Char) (c : Char) (r : List Char) :
    parseAfterInt intDs (c :: r) =
      if c = '.' then
        if (r.takeWhile Char.isDigit).isEmpty then (parseDigitsAcc 0 intDs, 0, c :: r)
        else (parseDigitsAcc (parseDigitsAcc 0 intDs) (r.takeWhile Char.isDigit),
          (r.takeWhile Char.isDigit).length, r.dropWhile Char.isDigit)
      else (parseDigitsAcc 0 intDs, 0, c :: r) := rfl

theorem parseAfterInt_not_dot (intDs : List Char) (c : Char) (r : List Char)
    (h : ¬(c = '.')) :
    parseAfterInt intDs (c :: r) = (parseDigitsAcc 0 intDs, 0, c :: r) := by
  rw [parseAfterInt_cons, if_neg h]

theorem parseAfterInt_dot (intDs r : List Char)
    (hne : (r.takeWhile Char.isDigit) ≠ []) :
    parseAfterInt intDs ('.' :: r) =
      (parseDigitsAcc (parseDigitsAcc 0 intDs) (r.takeWhile Char.isDigit),
       (r.takeWhile Char.isDigit).length, r.dropWhile Char.isDigit) := by
  rw [parseAfterInt_cons, if_pos rfl, if_neg (not_isEmpty_of_ne_nil hne)]

theorem unit_suffix_cases (u : String)
    (hu : u = "" ∨ u ∈ (["K", "M", "G", "k", "m", "g"] : List String)) :
    u.toList = [] ∨
      ∃ c, c ∈ bitrateUnits ∧ u.toList = [c] ∧ c.isDigit = false ∧
        ¬(c = '.') ∧ c.isWhitespace = false ∧ String.mk [c] = u := by
  rcases hu with rfl | hu
  · exact Or.inl rfl
  · right
    fin_cases hu
    · exact ⟨'K', by decide, rfl, by decide, by decide, by decide, rfl⟩
    · exact ⟨'M', by decide, rfl, by decide, by decide, by decide, rfl⟩
    · exact ⟨'G', by decide, rfl, by decide, by decide, by decide, rfl⟩
    · exact ⟨'k', by decide, rfl, by decide, by decide, by decide, rfl⟩
    · exact ⟨'m', by decide, rfl, by decide, by decide, by decide, rfl⟩
    · exact ⟨'g', by decide, rfl, by decide, by decide, by decide, rfl⟩

theorem unitOf_nil_case (rest : List Char)
    (h : rest.dropWhile Char.isWhitespace = []) : unitOf rest = "" := by
  unfold unitOf
  rw [h]

theorem unitOf_cons_case (rest : List Char) (c : Char) (t : List Char)
    (h : rest.dropWhile Char.isWhitespace = c :: t) :
    unitOf rest = if c ∈ bitrateUnits then String.mk [c] else "" := by
  unfold unitOf
  rw [h]

theorem unitOf_shape (rest : List Char) :
    unitOf rest = "" ∨ unitOf rest ∈ (["K", "M", "G", "k", "m", "g"] : List String) := by
  cases hdp : rest.dropWhile Char.isWhitespace with
  | nil => exact Or.inl (unitOf_nil_case rest hdp)
  | cons c t =>
    rw [unitOf_cons_case rest c t hdp]
    by_cases hc : c ∈ bitrateUnits
    · rw [if_pos hc]
      right
      fin_cases hc <;> decide
    · rw [if_neg hc]
      exact Or.inl rfl

theorem parseBitrate_unit (s : String) (m sc : Nat) (u : String)
    (h : parseBitrate s = some (m, sc, u)) :
    u = "" ∨ u ∈ (["K", "M", "G", "k", "m", "g"] : List String) := by
  unfold parseBitrate at h
  by_cases he : (s.toList.takeWhile Char.isDigit).isEmpty
  · rw [if_pos he] at h
    exact absurd h (by simp)
  · rw [if_neg he] at h
    have h2 := Option.some.inj h
    have h3 := congrArg (fun t => t.2.2) h2
    simp only at h3
    rw [← h3]
    exact unitOf_shape _

theorem pickCand_def (x : ℚ) (p : ℤ) :
    pickCand x p =
      if 1 ≤ ⌊x / qpow 10 p⌋ ∧
          roundDouble ((⌊x / qpow 10 p⌋ : ℚ) * qpow 10 p) = x then
        if roundDouble ((⌊x / qpow 10 p⌋ + 1 : ℤ) * qpow 10 p : ℚ) = x then
          if |x - (⌊x / qpow 10 p⌋ : ℚ) * qpow 10 p| <
              |x - ((⌊x / qpow 10 p⌋ + 1 : ℤ) : ℚ) * qpow 10 p| then
            some ⌊x / qpow 10 p⌋
          else if |x - ((⌊x / qpow 10 p⌋ + 1 : ℤ) : ℚ) * qpow 10 p| <
              |x - (⌊x / qpow 10 p⌋ : ℚ) * qpow 10 p| then
            some (⌊x / qpow 10 p⌋ + 1)
          else if ⌊x / qpow 10 p⌋ % 2 = 0 then some ⌊x / qpow 10 p⌋
          else some (⌊x / qpow 10 p⌋ + 1)
        else some ⌊x / qpow 10 p⌋
      else if roundDouble ((⌊x / qpow 10 p⌋ + 1 : ℤ) * qpow 10 p : ℚ) = x then
        some (⌊x / qpow 10 p⌋ + 1)
      else none := rfl

theorem qpow_pos (q : ℚ) (hq : 0 < q) (e : ℤ) : 0 < qpow q e := by
  rw [qpow_eq_zpow]
  exact zpow_pos hq e

theorem pickCand_sound (x : ℚ) (p : ℤ) (c : ℤ) (hx : 0 < x)
    (h : pickCand x p = some c) :
    1 ≤ c ∧ roundDouble ((c : ℚ) * qpow 10 p) = x := by
  have hfl0 : 0 ≤ ⌊x / qpow 10 p⌋ :=
    Int.floor_nonneg.mpr (div_nonneg hx.le (qpow_pos 10 (by norm_num) p).le)
  rw [pickCand_def] at h
  split_ifs at h with h1 h2 h3 h4 h5 h6
  · injection h with hc
    subst hc
    exact ⟨h1.1, h1.2⟩
  · injection h with hc
    subst hc
    refine ⟨by omega, ?_⟩
    push_cast at h2 ⊢
    exact h2
  · injection h with hc
    subst hc
    exact ⟨h1.1, h1.2⟩
  · injection h with hc
    subst hc
    refine ⟨by omega, ?_⟩
    push_cast at h2 ⊢
    exact h2
  · injection h with hc
    subst hc
    exact ⟨h1.1, h1.2⟩
  · injection h with hc
    subst hc
    refine ⟨by omega, ?_⟩
    push_cast at h6 ⊢
    exact h6

theorem shortestLoop_sound (x : ℚ) (L : ℤ) (hx : 0 < x) :
    ∀ fuel k s p, shortestLoop x L fuel k = some (s, p) →
      1 ≤ s ∧ roundDouble ((s : ℚ) * qpow 10 p) = x := by
  intro fuel
  induction fuel with
  | zero =>
    intro k s p h
    exact absurd h (by simp [shortestLoop])
  | succ f ih =>
    intro k s p h
    unfold shortestLoop at h
    cases hpc : pickCand x (L + 1 - (k : ℤ)) with
    | some c =>
      rw [hpc] at h
      injection h with h2
      have hs2 : s = c := (Prod.mk.inj h2).1.symm
      have hp2 : p = L + 1 - (k : ℤ) := (Prod.mk.inj h2).2.symm
      rw [hs2, hp2]
      exact pickCand_sound x _ c hx hpc
    | none =>
      rw [hpc] at h
      exact ih (k + 1) s p h

theorem stripTens_step (fuel : Nat) (s p : ℤ) :
    stripTens (fuel + 1) s p =
      if s % 10 = 0 ∧ s ≠ 0 then stripTens fuel (s / 10) (p + 1) else (s, p) := rfl

theorem stripTens_sound (fuel : Nat) :
    ∀ s p : ℤ, 1 ≤ s →
      1 ≤ (stripTens fuel s p).1 ∧
      ((stripTens fuel s p).1 : ℚ) * qpow 10 (stripTens fuel s p).2 =
        (s : ℚ) * qpow 10 p := by
  induction fuel with
  | zero => intro s p hs; exact ⟨hs, rfl⟩
  | succ f ih =>
    intro s p hs
    by_cases hc : s % 10 = 0 ∧ s ≠ 0
    · rw [stripTens_step, if_pos hc]
      have hs10 : 1 ≤ s / 10 := by omega
      obtain ⟨ih1, ih2⟩ := ih (s / 10) (p + 1) hs10
      refine ⟨ih1, ?_⟩
      rw [ih2]
      have hsplit : (10 : ℤ) * (s / 10) = s := by omega
      rw [qpow_eq_zpow, qpow_eq_zpow, show (p : ℤ) + 1 = 1 + p by ring,
        zpow_add₀ (by norm_num : (10 : ℚ) ≠ 0), zpow_one]
      calc ((s / 10 : ℤ) : ℚ) * (10 * (10 : ℚ) ^ p)
          = ((10 * (s / 10) : ℤ) : ℚ) * (10 : ℚ) ^ p := by push_cast; ring
        _ = (s : ℚ) * (10 : ℚ) ^ p := by rw [hsplit]
    · rw [stripTens_step, if_neg hc]
      exact ⟨hs, rfl⟩

theorem natDigits_length_bounds (n : Nat) (hn : n ≠ 0) :
    10 ^ ((natDigits n).length - 1) ≤ n ∧ n < 10 ^ (natDigits n).length := by
  rw [natDigits_eq, if_neg hn, List.length_reverse, List.length_map,
    Nat.digits_len 10 n (by norm_num) hn]
  constructor
  · simpa using Nat.pow_log_le_self 10 hn
  · exact Nat.lt_pow_succ_log_self (by norm_num) n

theorem natLogF_pow2 (j : Nat) : natLogF 2 (2 ^ j) = j := by
  obtain ⟨g1, g2⟩ := natLogF_spec 2 (2 ^ j) le_rfl (Nat.one_le_two_pow)
  have hle1 : natLogF 2 (2 ^ j) ≤ j := (Nat.pow_le_pow_iff_right one_lt_two).mp g1
  have hle2 : j < natLogF 2 (2 ^ j) + 1 := (Nat.pow_lt_pow_iff_right one_lt_two).mp g2
  omega

theorem isDouble_den_pow2 (x : ℚ) (hx : IsDouble x) : ∃ j, x.den = 2 ^ j := by
  obtain ⟨m, e, hm1, hm2, hval⟩ := hx
  rcases le_or_lt 52 e with he | he
  · refine ⟨0, ?_⟩
    have hint : x = ((m * 2 ^ (e - 52).toNat : ℤ) : ℚ) := by
      rw [hval, qpow_eq_zpow]
      push_cast
      rw [show ((2 : ℚ) ^ (e - 52).toNat) = (2 : ℚ) ^ (((e - 52).toNat : ℤ)) from
        (zpow_natCast _ _).symm]
      rw [Int.toNat_of_nonneg (by omega)]
    rw [hint, Rat.den_intCast, pow_zero]
  · have hxe : x = Rat.divInt m (2 ^ (52 - e).toNat) := by
      rw [Rat.divInt_eq_div, hval, qpow_eq_zpow]
      rw [eq_div_iff (by positivity)]
      push_cast
      rw [show ((2 : ℚ) ^ (52 - e).toNat) = (2 : ℚ) ^ (((52 - e).toNat : ℤ)) from
        (zpow_natCast _ _).symm]
      rw [Int.toNat_of_nonneg (by omega), mul_assoc, ← zpow_add₀ two_ne_zero]
      rw [show (e - 52) + (52 - e) = 0 by ring, zpow_zero, mul_one]
    have hdvd : ((x.den : ℤ)) ∣ ((2 : ℤ) ^ (52 - e).toNat) := by
      rw [hxe]
      exact Rat.den_dvd m (2 ^ (52 - e).toNat)
    have hdvdN : x.den ∣ 2 ^ (52 - e).toNat := by exact_mod_cast hdvd
    obtain ⟨i, _, hden⟩ := (Nat.dvd_prime_pow Nat.prime_two).mp hdvdN
    exact ⟨i, hden⟩

theorem exactDecimal_sound (x : ℚ) (hx : IsDouble x) :
    1 ≤ (exactDecimal x).1 ∧
    ((exactDecimal x).1 : ℚ) * qpow 10 (exactDecimal x).2 = x := by
  have hxpos := isDouble_pos x hx
  obtain ⟨j, hj⟩ := isDouble_den_pow2 x hx
  have hjlog : natLogF 2 x.den = j := by rw [hj, natLogF_pow2]
  have heD : exactDecimal x = (x.num * 5 ^ j, -(j : ℤ)) := by
    unfold exactDecimal
    rw [hjlog]
  have hnum : 0 < x.num := Rat.num_pos.mpr hxpos
  rw [heD]
  constructor
  · show (1 : ℤ) ≤ x.num * 5 ^ j
    have h5 : (0 : ℤ) < 5 ^ j := by positivity
    nlinarith
  · show ((x.num * 5 ^ j : ℤ) : ℚ) * qpow 10 (-(j : ℤ)) = x
    have h2ne : ((2 : ℚ)) ^ j ≠ 0 := by positivity
    have h5ne : ((5 : ℚ)) ^ j ≠ 0 := by positivity
    have h10 : (10 : ℚ) ^ j = 2 ^ j * 5 ^ j := by
      rw [← mul_pow]
      norm_num
    have hden : ((x.den : ℚ)) = 2 ^ j := by
      rw [hj]
      push_cast
      ring
    have h1 : (x.num : ℚ) / ((2 : ℚ) ^ j) = x := by
      rw [← hden]
      exact Rat.num_div_den x
    have key : ((x.num * 5 ^ j : ℤ) : ℚ) * ((10 : ℚ) ^ j)⁻¹ =
        (x.num : ℚ) / ((2 : ℚ) ^ j) := by
      rw [h10]
      push_cast
      field_simp
      ring
    rw [qpow_eq_zpow, zpow_neg, zpow_natCast, key, h1]

theorem formatRep_def (s p : ℤ) :
    formatRep s p =
      (if ((natDigits s.natAbs).length : ℤ) ≤ ((natDigits s.natAbs).length : ℤ) + p ∧
          ((natDigits s.natAbs).length : ℤ) + p ≤ 21 then
        String.mk (natDigits s.natAbs ++
          List.replicate ((((natDigits s.natAbs).length : ℤ) + p) -
            ((natDigits s.natAbs).length : ℤ)).toNat '0')
      else if 0 < ((natDigits s.natAbs).length : ℤ) + p ∧
          ((natDigits s.natAbs).length : ℤ) + p ≤ 21 then
        String.mk ((natDigits s.natAbs).take (((natDigits s.natAbs).length : ℤ) + p).toNat ++
          '.' :: (natDigits s.natAbs).drop (((natDigits s.natAbs).length : ℤ) + p).toNat)
      else if -6 < ((natDigits s.natAbs).length : ℤ) + p ∧
          ((natDigits s.natAbs).length : ℤ) + p ≤ 0 then
        String.mk ('0' :: '.' ::
          (List.replicate (-(((natDigits s.natAbs).length : ℤ) + p)).toNat '0' ++
            natDigits s.natAbs))
      else
        String.mk
          ((match natDigits s.natAbs with
            | [] => natDigits s.natAbs
            | d :: rest => if rest.isEmpty then [d] else d :: '.' :: rest) ++
            'e' :: (if 0 ≤ ((natDigits s.natAbs).length : ℤ) + p - 1 then
                '+' :: natDigits (((natDigits s.natAbs).length : ℤ) + p - 1).toNat
              else '-' :: natDigits (-(((natDigits s.natAbs).length : ℤ) + p - 1)).toNat))) := rfl

theorem parseBitrate_formatRep (s p : ℤ) (u : String) (hs : 1 ≤ s)
    (hu : u = "" ∨ u ∈ (["K", "M", "G", "k", "m", "g"] : List String))
    (hn21 : ((natDigits s.natAbs).length : ℤ) + p ≤ 21)
    (hn6 : (-6 : ℤ) < ((natDigits s.natAbs).length : ℤ) + p) :
    ∃ m2 s2 : Nat, parseBitrate (formatRep s p ++ u) = some (m2, s2, u)
      ∧ ((m2 : ℚ)) / 10 ^ s2 = (s : ℚ) * qpow 10 p := by
  have hul := unit_suffix_cases u hu
  have htw : u.toList.takeWhile Char.isDigit = [] := by
    rcases hul with h0 | ⟨c, _, hulc, hcd, _, _, _⟩
    · rw [h0]
      rfl
    · rw [hulc, List.takeWhile_cons, hcd]
      rfl
  have hdw : u.toList.dropWhile Char.isDigit = u.toList := by
    rcases hul with h0 | ⟨c, _, hulc, hcd, _, _, _⟩
    · rw [h0]
      rfl
    · rw [hulc, List.dropWhile_cons, hcd]
      rfl
  have hunit : unitOf u.toList = u := by
    rcases hul with h0 | ⟨c, hcu, hulc, _, _, hcw, hcmk⟩
    · rw [h0, toList_eq_nil u h0]
      rfl
    · rw [hulc]
      unfold unitOf
      rw [List.dropWhile_cons, hcw]
      simp only [Bool.false_eq_true, if_false, if_pos hcu]
      exact hcmk
  have hdig := natDigits_all_digit s.natAbs
  have hne : natDigits s.natAbs ≠ [] := natDigits_ne_nil s.natAbs
  have hk1 : 1 ≤ (natDigits s.natAbs).length := List.length_pos.mpr hne
  have hsA : ((s.natAbs : ℤ)) = s := Int.natAbs_of_nonneg (by omega)
  have hsAQ : ((s.natAbs : ℚ)) = (s : ℚ) := by
    rw [Int.cast_natAbs]
    exact_mod_cast abs_of_nonneg (show (0 : ℤ) ≤ s by omega)
  have hAcc : parseDigitsAcc 0 (natDigits s.natAbs) = s.natAbs :=
    parseDigitsAcc_natDigits s.natAbs
  rw [formatRep_def]
  split_ifs with hC1 hC2 hC3
  · -- integer layout: digits then n - k zeros
    have hp0 : 0 ≤ p := by omega
    have hznat : ((((natDigits s.natAbs).length : ℤ) + p) -
        ((natDigits s.natAbs).length : ℤ)).toNat = p.toNat := by omega
    rw [hznat]
    have hAll : ∀ c ∈ natDigits s.natAbs ++ List.replicate p.toNat '0',
        c.isDigit = true := by
      intro c hc
      rcases List.mem_append.mp hc with hc | hc
      · exact hdig c hc
      · rw [List.eq_of_mem_replicate hc]
        decide
    have hNE : natDigits s.natAbs ++ List.replicate p.toNat '0' ≠ [] := by
      intro h0
      exact hne (List.append_eq_nil.mp h0).1
    refine ⟨s.natAbs * 10 ^ p.toNat, 0, ?_, ?_⟩
    · simp only [parseBitrate, toList_mk_append]
      rw [takeWhile_append_all _ _ _ hAll, htw, List.append_nil,
        dropWhile_append_all _ _ _ hAll, hdw,
        if_neg (not_isEmpty_of_ne_nil hNE)]
      rcases hul with h0 | ⟨c, hcu, hulc, hcd, hcdot, hcw, hcmk⟩
      · rw [h0, parseAfterInt_nil]
        simp only
        rw [parseDigitsAcc_append, hAcc, parseDigitsAcc_zeros]
        rw [show unitOf [] = "" from rfl, toList_eq_nil u h0]
      · rw [hulc, parseAfterInt_not_dot _ _ _ hcdot]
        simp only
        rw [parseDigitsAcc_append, hAcc, parseDigitsAcc_zeros]
        rw [show unitOf [c] = unitOf u.toList by rw [hulc], hunit]
    · rw [pow_zero, div_one, qpow_eq_zpow]
      push_cast
      rw [hsAQ, show ((10 : ℚ)) ^ p.toNat = (10 : ℚ) ^ p from by
        rw [← zpow_natCast, Int.toNat_of_nonneg hp0]]
  · -- decimal point inside the digits
    have hplt : p < 0 := by omega
    set nt := (((natDigits s.natAbs).length : ℤ) + p).toNat with hnt
    have hnt1 : 1 ≤ nt := by omega
    have hntlt : nt < (natDigits s.natAbs).length := by omega
    have hAllTake : ∀ c ∈ (natDigits s.natAbs).take nt, c.isDigit = true :=
      fun c hc => hdig c (List.mem_of_mem_take hc)
    have hAllDrop : ∀ c ∈ (natDigits s.natAbs).drop nt, c.isDigit = true :=
      fun c hc => hdig c (List.mem_of_mem_drop hc)
    have hTakeNE : (natDigits s.natAbs).take nt ≠ [] := by
      intro h0
      rcases List.take_eq_nil_iff.mp h0 with h1 | h1
      · omega
      · exact hne h1
    have hDropNE : (natDigits s.natAbs).drop nt ≠ [] := by
      intro h0
      have := List.drop_eq_nil_iff.mp h0
      omega
    refine ⟨s.natAbs, (natDigits s.natAbs).length - nt, ?_, ?_⟩
    · simp only [parseBitrate, toList_mk_append]
      rw [List.append_assoc, List.cons_append,
        takeWhile_append_all _ _ _ hAllTake,
        dropWhile_append_all _ _ _ hAllTake,
        List.takeWhile_cons, List.dropWhile_cons]
      simp only [show ('.' : Char).isDigit = false by decide, Bool.false_eq_true,
        if_false, List.append_nil]
      rw [if_neg (not_isEmpty_of_ne_nil hTakeNE)]
      have htkB : ((natDigits s.natAbs).drop nt ++ u.toList).takeWhile Char.isDigit =
          (natDigits s.natAbs).drop nt := by
        rw [takeWhile_append_all _ _ _ hAllDrop, htw, List.append_nil]
      have hdpB : ((natDigits s.natAbs).drop nt ++ u.toList).dropWhile Char.isDigit =
          u.toList := by
        rw [dropWhile_append_all _ _ _ hAllDrop, hdw]
      rw [parseAfterInt_dot _ _ (by rw [htkB]; exact hDropNE)]
      rw [htkB, hdpB, hunit]
      rw [← parseDigitsAcc_append, List.take_append_drop, hAcc, List.length_drop]
    · have hlen : ((natDigits s.natAbs).length - nt : ℕ) = (-p).toNat := by omega
      rw [hlen, qpow_eq_zpow, hsAQ]
      rw [show ((10 : ℚ)) ^ p = ((10 : ℚ) ^ (-p).toNat)⁻¹ from by
        rw [← zpow_natCast, Int.toNat_of_nonneg (by omega : (0 : ℤ) ≤ -p),
          ← zpow_neg, neg_neg]]
      rw [div_eq_mul_inv]
  · -- leading "0." layout: zeros then the digits
    set z := (-(((natDigits s.natAbs).length : ℤ) + p)).toNat with hz
    have hAllFrac : ∀ c ∈ List.replicate z '0' ++ natDigits s.natAbs,
        c.isDigit = true := by
      intro c hc
      rcases List.mem_append.mp hc with hc | hc
      · rw [List.eq_of_mem_replicate hc]
        decide
      · exact hdig c hc
    have hFracNE : List.replicate z '0' ++ natDigits s.natAbs ≠ [] := by
      intro h0
      exact hne (List.append_eq_nil.mp h0).2
    refine ⟨s.natAbs, z + (natDigits s.natAbs).length, ?_, ?_⟩
    · simp only [parseBitrate, toList_mk_append]
      rw [List.cons_append, List.cons_append,
        List.takeWhile_cons, List.dropWhile_cons]
      simp only [show ('0' : Char).isDigit = true by decide, if_true,
        List.takeWhile_cons, List.dropWhile_cons,
        show ('.' : Char).isDigit = false by decide, Bool.false_eq_true, if_false]
      rw [if_neg (by decide : (['0'] : List Char).isEmpty = true → False)]
      have htkB : ((List.replicate z '0' ++ natDigits s.natAbs) ++
          u.toList).takeWhile Char.isDigit =
          List.replicate z '0' ++ natDigits s.natAbs := by
        rw [takeWhile_append_all _ _ _ hAllFrac, htw, List.append_nil]
      have hdpB : ((List.replicate z '0' ++ natDigits s.natAbs) ++
          u.toList).dropWhile Char.isDigit = u.toList := by
        rw [dropWhile_append_all _ _ _ hAllFrac, hdw]
      rw [parseAfterInt_dot _ _ (by rw [htkB]; exact hFracNE)]
      rw [htkB, hdpB, hunit]
      rw [show parseDigitsAcc 0 ['0'] = 0 from rfl]
      rw [parseDigitsAcc_append, parseDigitsAcc_zeros, zero_mul, hAcc,
        List.length_append, List.length_replicate]
    · rw [hsAQ, qpow_eq_zpow,
        show p = -((z + (natDigits s.natAbs).length : ℕ) : ℤ) from by omega,
        zpow_neg, zpow_natCast, div_eq_mul_inv]
  · omega
  · omega

theorem getMaxBitrate_roundTrip (b : String) (m s : Nat) (u : String)
    (hparse : parseBitrate b = some (m, s, u))
    (hlo : (1 : ℚ) / 100000 ≤ (m : ℚ) / 10 ^ s)
    (hhi : (m : ℚ) / 10 ^ s ≤ 10 ^ 19) :
    ∃ m2 s2 : Nat, parseBitrate (getMaxBitrate b) = some (m2, s2, u)
      ∧ roundDouble ((m2 : ℚ) / 10 ^ s2) =
          roundDouble ((3 : ℚ) / 2 * roundDouble ((m : ℚ) / 10 ^ s)) := by
  have hv0 : (0 : ℚ) < (m : ℚ) / 10 ^ s := lt_of_lt_of_le (by norm_num) hlo
  set v : ℚ := (m : ℚ) / 10 ^ s with hvdef
  have hfv0 : 0 < roundDouble v := roundDouble_pos v hv0
  have hprod0 : (0 : ℚ) < (3 : ℚ) / 2 * roundDouble v := by linarith
  set x := roundDouble ((3 : ℚ) / 2 * roundDouble v) with hxdef
  have hx0 : 0 < x := roundDouble_pos _ hprod0
  have hxDouble : IsDouble x := isDouble_roundDouble _ hprod0
  have hgmb : getMaxBitrate b = jsNumberToString x ++ u := by
    simp only [getMaxBitrate, hparse]
  have hxlo : (3 : ℚ) / 800000 ≤ x := by
    have h1 : v / 2 ≤ roundDouble v := roundDouble_ge_half v hv0.le
    have h2 : ((3 : ℚ) / 2 * roundDouble v) / 2 ≤ x := roundDouble_ge_half _ hprod0.le
    nlinarith [hlo]
  have hxhi : x ≤ 6 * 10 ^ 19 := by
    have h1 : roundDouble v ≤ 2 * v := roundDouble_le_twice v hv0.le
    have h2 : x ≤ 2 * ((3 : ℚ) / 2 * roundDouble v) := roundDouble_le_twice _ hprod0.le
    nlinarith [hhi]
  obtain ⟨s1, p1, hrep, hs1, hval1⟩ :
      ∃ s1 p1, shortestRepOf x = (s1, p1) ∧ 1 ≤ s1 ∧
        roundDouble ((s1 : ℚ) * qpow 10 p1) = x := by
    unfold shortestRepOf
    cases hloop : shortestLoop x (floorLogB 10 x) 17 1 with
    | some sp =>
      obtain ⟨h1, h2⟩ :=
        shortestLoop_sound x (floorLogB 10 x) hx0 17 1 sp.1 sp.2 (by rw [hloop])
      exact ⟨sp.1, sp.2, rfl, h1, h2⟩
    | none =>
      obtain ⟨h1, h2⟩ := exactDecimal_sound x hxDouble
      refine ⟨(exactDecimal x).1, (exactDecimal x).2, rfl, h1, ?_⟩
      rw [h2]
      exact roundDouble_of_isDouble x hxDouble
  obtain ⟨hs2, hval2⟩ := stripTens_sound 64 s1 p1 hs1
  set s2I := (stripTens 64 s1 p1).1 with hs2Idef
  set p2I := (stripTens 64 s1 p1).2 with hp2Idef
  have hval2x : roundDouble ((s2I : ℚ) * qpow 10 p2I) = x := by
    rw [hval2]
    exact hval1
  have hjs : jsNumberToString x = formatRep s2I p2I := by
    unfold jsNumberToString
    rw [if_neg (not_le.mpr hx0)]
    have hnr : normalizeRep (shortestRepOf x) = (s2I, p2I) := by
      rw [hrep]
      rfl
    rw [hnr]
  have hs2Q : (1 : ℚ) ≤ (s2I : ℚ) := by exact_mod_cast hs2
  have hvalpos : (0 : ℚ) < (s2I : ℚ) * qpow 10 p2I := by
    apply mul_pos (by linarith) (qpow_pos 10 (by norm_num) p2I)
  have hA := roundDouble_ge_half _ hvalpos.le
  have hB := roundDouble_le_twice _ hvalpos.le
  rw [hval2x] at hA hB
  have hkNat := natDigits_length_bounds s2I.natAbs (by omega)
  have hsAbsQ : ((s2I.natAbs : ℚ)) = (s2I : ℚ) := by
    rw [Int.cast_natAbs]
    exact_mod_cast abs_of_nonneg (show (0 : ℤ) ≤ s2I by omega)
  have hq1 : (10 : ℚ) ^ (((natDigits s2I.natAbs).length : ℤ) - 1) ≤ (s2I : ℚ) := by
    have h1 : ((10 ^ ((natDigits s2I.natAbs).length - 1) : ℕ) : ℚ) ≤
        ((s2I.natAbs : ℕ) : ℚ) := by exact_mod_cast hkNat.1
    rw [hsAbsQ] at h1
    push_cast at h1
    calc (10 : ℚ) ^ (((natDigits s2I.natAbs).length : ℤ) - 1)
        = (10 : ℚ) ^ (((natDigits s2I.natAbs).length - 1 : ℕ) : ℤ) := by
          congr 1
          have := natDigits_ne_nil s2I.natAbs
          have hlp : 1 ≤ (natDigits s2I.natAbs).length := List.length_pos.mpr this
          omega
      _ = (10 : ℚ) ^ ((natDigits s2I.natAbs).length - 1 : ℕ) := zpow_natCast _ _
      _ ≤ (s2I : ℚ) := h1
  have hq2 : (s2I : ℚ) < (10 : ℚ) ^ (((natDigits s2I.natAbs).length : ℕ) : ℤ) := by
    have h1 : ((s2I.natAbs : ℕ) : ℚ) <
        ((10 ^ (natDigits s2I.natAbs).length : ℕ) : ℚ) := by exact_mod_cast hkNat.2
    rw [hsAbsQ] at h1
    push_cast at h1
    rw [zpow_natCast]
    exact h1
  have hval_lo : (10 : ℚ) ^ (((natDigits s2I.natAbs).length : ℤ) - 1 + p2I) ≤
      (s2I : ℚ) * qpow 10 p2I := by
    rw [qpow_eq_zpow, zpow_add₀ (by norm_num : (10 : ℚ) ≠ 0)]
    exact mul_le_mul_of_nonneg_right hq1 (zpow_pos (by norm_num) _).le
  have hval_hi : (s2I : ℚ) * qpow 10 p2I <
      (10 : ℚ) ^ (((natDigits s2I.natAbs).length : ℤ) + p2I) := by
    rw [qpow_eq_zpow, zpow_add₀ (by norm_num : (10 : ℚ) ≠ 0)]
    exact (mul_lt_mul_right (zpow_pos (by norm_num) _)).mpr hq2
  have hn21 : ((natDigits s2I.natAbs).length : ℤ) + p2I ≤ 21 := by
    by_contra hc
    have h1 : (10 : ℚ) ^ (21 : ℤ) ≤
        (10 : ℚ) ^ (((natDigits s2I.natAbs).length : ℤ) - 1 + p2I) :=
      zpow_le_zpow_right₀ (by norm_num) (by omega)
    have h2 : (10 : ℚ) ^ (21 : ℤ) = 1000000000000000000000 := by norm_num
    have h3 : (10 : ℚ) ^ (19 : ℕ) = 10000000000000000000 := by norm_num
    have h4 : (s2I : ℚ) * qpow 10 p2I ≤ 2 * x := by linarith
    rw [h2] at h1
    rw [h3] at hxhi
    linarith
  have hn6 : (-6 : ℤ) < ((natDigits s2I.natAbs).length : ℤ) + p2I := by
    by_contra hc
    push_neg at hc
    have h1 : (10 : ℚ) ^ (((natDigits s2I.natAbs).length : ℤ) + p2I) ≤
        (10 : ℚ) ^ (-6 : ℤ) :=
      zpow_le_zpow_right₀ (by norm_num) hc
    have h2 : (10 : ℚ) ^ (-6 : ℤ) = 1 / 1000000 := by norm_num
    have h3 : x / 2 ≤ (s2I : ℚ) * qpow 10 p2I := by linarith
    rw [h2] at h1
    linarith
  obtain ⟨m2, s2n, hpp, hvv⟩ := parseBitrate_formatRep s2I p2I u hs2
    (parseBitrate_unit b m s u hparse) hn21 hn6
  refine ⟨m2, s2n, ?_, ?_⟩
  · rw [hgmb, hjs]
    exact hpp
  · rw [hvv]
    exact hval2x

set_option maxRecDepth 100000 in
/-- C6 counterexample: the VBR maximum bitrate the program computes is the
binary64 product of 1.5 and the parsed value, printed with the ECMAScript
shortest round-trip algorithm — not the exact rational 1.5x value the
claim states.  For the schema-valid target "1.3M" the max-bitrate string
is "1.9500000000000002M", whose numeric value differs from 3/2 times
1.3. -/
theorem claim_C6_counterexample :
    getMaxBitrate "1.3M" = "1.9500000000000002M"
    ∧ parseBitrate "1.3M" = some (13, 1, "M")
    ∧ parseBitrate "1.9500000000000002M" = some (19500000000000002, 16, "M")
    ∧ ((19500000000000002 : ℚ) / 10 ^ (16 : ℕ) ≠
        3 / 2 * ((13 : ℚ) / 10 ^ (1 : ℕ))) := by
  refine ⟨by decide, by decide, by decide, by decide⟩

/-- C6 corrected: createEncodingProfile uses an explicit per-job bitrate
override when given, else buckets by target height (low up to 720, medium
up to 1080, high above), and the resolved pair lands in the bitrate
arguments of the hardware profiles.  The VBR maximum bitrate is the
binary64 product of 1.5 with the parsed target value, rendered by the
ECMAScript shortest round-trip algorithm: for a target value between
10^-5 and 10^19 the max-bitrate string parses under the same pattern with
the unit suffix preserved, and its numeric value rounds back to exactly
that binary64 product — which can differ from the exact rational product
3/2 times the target value, as the counterexample shows. -/
theorem claim_C6 (config : Config) (targetHeight : Nat) (ov : Option String)
    (detected : HardwareProfile) (m s : Nat) (u : String)
    (hparse : parseBitrate (ov.getD (getBitrateForHeight targetHeight config)) =
      some (m, s, u)) :
    (∀ o, ov = some o → ov.getD (getBitrateForHeight targetHeight config) = o)
    ∧ (ov = none → ov.getD (getBitrateForHeight targetHeight config) =
        (if targetHeight ≤ 720 then config.bitrates.low
         else if targetHeight ≤ 1080 then config.bitrates.medium
         else config.bitrates.high))
    ∧ ((1 : ℚ) / 100000 ≤ (m : ℚ) / 10 ^ s → (m : ℚ) / 10 ^ s ≤ 10 ^ 19 →
        ∃ m2 s2, parseBitrate
            (getMaxBitrate (ov.getD (getBitrateForHeight targetHeight config))) =
            some (m2, s2, u)
          ∧ roundDouble ((m2 : ℚ) / 10 ^ s2) =
              roundDouble ((3 : ℚ) / 2 * roundDouble ((m : ℚ) / 10 ^ s)))
    ∧ (resolveHardware config.hardwareProfile detected = .nvidia →
        (createEncodingProfile config targetHeight ov detected).encoder.bitrateArgs =
          ["-b:v", ov.getD (getBitrateForHeight targetHeight config),
           "-maxrate", getMaxBitrate (ov.getD (getBitrateForHeight targetHeight config)),
           "-bufsize", ov.getD (getBitrateForHeight targetHeight config)])
    ∧ (resolveHardware config.hardwareProfile detected = .rockchip →
        (createEncodingProfile config targetHeight ov detected).encoder.bitrateArgs =
          ["-b:v", ov.getD (getBitrateForHeight targetHeight config),
           "-maxrate", getMaxBitrate (ov.getD (getBitrateForHeight targetHeight config))]) := by
  refine ⟨?_, ?_, ?_, ?_, ?_⟩
  · intro o h
    rw [h]
    rfl
  · intro h
    rw [h]
    rfl
  · intro hlo hhi
    exact getMaxBitrate_roundTrip _ m s u hparse hlo hhi
  · intro hres
    simp only [createEncodingProfile, hres, createNvidiaProfile]
  · intro hres
    simp only [createEncodingProfile, hres, createRockchipProfile]

set_option maxRecDepth 100000 in
theorem claim_C6_witness :
    parseBitrate ((none : Option String).getD (getBitrateForHeight 1080 sampleConfig)) =
      some (5, 0, "M") ∧
    ((∀ o, (none : Option String) = some o →
        (none : Option String).getD (getBitrateForHeight 1080 sampleConfig) = o)
    ∧ ((none : Option String) = none →
        (none : Option String).getD (getBitrateForHeight 1080 sampleConfig) =
        (if 1080 ≤ 720 then sampleConfig.bitrates.low
         else if 1080 ≤ 1080 then sampleConfig.bitrates.medium
         else sampleConfig.bitrates.high))
    ∧ ((1 : ℚ) / 100000 ≤ ((5 : Nat) : ℚ) / 10 ^ (0 : Nat) →
        ((5 : Nat) : ℚ) / 10 ^ (0 : Nat) ≤ 10 ^ 19 →
        ∃ m2 s2, parseBitrate
            (getMaxBitrate ((none : Option String).getD (getBitrateForHeight 1080 sampleConfig))) =
            some (m2, s2, "M")
          ∧ roundDouble ((m2 : ℚ) / 10 ^ s2) =
              roundDouble ((3 : ℚ) / 2 * roundDouble (((5 : Nat) : ℚ) / 10 ^ (0 : Nat))))
    ∧ (resolveHardware sampleConfig.hardwareProfile .nvidia = .nvidia →
        (createEncodingProfile sampleConfig 1080 none .nvidia).encoder.bitrateArgs =
          ["-b:v", (none : Option String).getD (getBitrateForHeight 1080 sampleConfig),
           "-maxrate", getMaxBitrate ((none : Option String).getD (getBitrateForHeight 1080 sampleConfig)),
           "-bufsize", (none : Option String).getD (getBitrateForHeight 1080 sampleConfig)])
    ∧ (resolveHardware sampleConfig.hardwareProfile .nvidia = .rockchip →
        (createEncodingProfile sampleConfig 1080 none .nvidia).encoder.bitrateArgs =
          ["-b:v", (none : Option String).getD (getBitrateForHeight 1080 sampleConfig),
           "-maxrate", getMaxBitrate ((none : Option String).getD (getBitrateForHeight 1080 sampleConfig))])) :=
  ⟨by decide, claim_C6 sampleConfig 1080 none .nvidia 5 0 "M" (by decide)⟩

/-- C5: buildFFmpegArgsFromProfile assembles, for every profile, exactly
hardware input-acceleration flags, input path, encoder selection, scaler
segment, bitrate flags, quality flags, audio copy, subtitle copy, map
everything, overwrite flag, output path, in that order; and the scaler
segment is empty whenever a target dimension is missing. -/
theorem claim_C5 (profile : EncodingProfile) (inputPath outputPath : String)
    (targetWidth targetHeight : Option Nat) :
    buildFFmpegArgsFromProfile profile inputPath outputPath targetWidth targetHeight =
      hwAccelArgList profile.hwAccelInput ++ ["-i", inputPath] ++
        ["-c:v", profile.encoder.encoder] ++
        scalerArgList profile targetWidth targetHeight ++
        profile.encoder.bitrateArgs ++ profile.encoder.qualityArgs ++
        ["-c:a", "copy"] ++ ["-c:s", "copy"] ++ ["-map", "0"] ++ ["-y"] ++
        [outputPath]
    ∧ ((targetWidth = none ∨ targetHeight = none) →
        scalerArgList profile targetWidth targetHeight = []) := by
  constructor
  · simp only [buildFFmpegArgsFromProfile, hwAccelArgList, scalerArgList,
      List.nil_append, List.append_assoc]
  · rintro (rfl | rfl)
    · rfl
    · cases targetWidth <;> rfl

theorem claim_C5_witness :
    buildFFmpegArgsFromProfile
        (createNvidiaProfile DEFAULT_NVIDIA_SETTINGS "5M" "7.5M")
        "/media/in.mkv" "/tmp/out.mkv" (some 1280) (some 720) =
      hwAccelArgList (createNvidiaProfile DEFAULT_NVIDIA_SETTINGS "5M" "7.5M").hwAccelInput ++
        ["-i", "/media/in.mkv"] ++
        ["-c:v", (createNvidiaProfile DEFAULT_NVIDIA_SETTINGS "5M" "7.5M").encoder.encoder] ++
        scalerArgList (createNvidiaProfile DEFAULT_NVIDIA_SETTINGS "5M" "7.5M")
          (some 1280) (some 720) ++
        (createNvidiaProfile DEFAULT_NVIDIA_SETTINGS "5M" "7.5M").encoder.bitrateArgs ++
        (createNvidiaProfile DEFAULT_NVIDIA_SETTINGS "5M" "7.5M").encoder.qualityArgs ++
        ["-c:a", "copy"] ++ ["-c:s", "copy"] ++ ["-map", "0"] ++ ["-y"] ++
        ["/tmp/out.mkv"]
    ∧ ((some 1280 = (none : Option Nat) ∨ some 720 = (none : Option Nat)) →
        scalerArgList (createNvidiaProfile DEFAULT_NVIDIA_SETTINGS "5M" "7.5M")
          (some 1280) (some 720) = []) :=
  claim_C5 (createNvidiaProfile DEFAULT_NVIDIA_SETTINGS "5M" "7.5M")
    "/media/in.mkv" "/tmp/out.mkv" (some 1280) (some 720)

theorem renameF_spec (src dst : String) (m : FsState) :
    ((renameF src dst m).2).log = m.log ++ [FsOp.renameOp src dst]
    ∧ ((renameF src dst m).1 = none →
        ∃ b, m.fs src = some b ∧
          ((renameF src dst m).2).fs = fsSet (fsSet m.fs src none) dst (some b))
    ∧ (∀ e, (renameF src dst m).1 = some e → ((renameF src dst m).2).fs = m.fs) := by
  unfold renameF nextOutcome
  rcases m with ⟨fs, sched, log⟩
  rcases sched with _ | ⟨o, rest⟩
  · cases hf : fs src <;> simp [hf]
  · rcases o with _ | e
    · cases hf : fs src <;> simp [hf]
    · simp

theorem removeF_spec (p : String) (m : FsState) :
    ((removeF p m).2).log = m.log ++ [FsOp.removeOp p]
    ∧ ((removeF p m).1 = none → ((removeF p m).2).fs = fsSet m.fs p none)
    ∧ (∀ e, (removeF p m).1 = some e → ((removeF p m).2).fs = m.fs) := by
  unfold removeF nextOutcome
  rcases m with ⟨fs, sched, log⟩
  rcases sched with _ | ⟨o, rest⟩
  · cases hf : fs p <;> simp [hf]
  · rcases o with _ | e
    · cases hf : fs p <;> simp [hf]
    · simp

theorem copyF_spec (src dst : String) (m : FsState) :
    ((copyF src dst m).2).log = m.log ++ [FsOp.copyOp src dst]
    ∧ ((copyF src dst m).1 = none →
        ∃ b, m.fs src = some b ∧ ((copyF src dst m).2).fs = fsSet m.fs dst (some b))
    ∧ (∀ e, (copyF src dst m).1 = some e → ((copyF src dst m).2).fs = m.fs) := by
  unfold copyF nextOutcome
  rcases m with ⟨fs, sched, log⟩
  rcases sched with _ | ⟨o, rest⟩
  · cases hf : fs src <;> simp [hf]
  · rcases o with _ | e
    · cases hf : fs src <;> simp [hf]
    · simp

theorem renameF_frame (src dst : String) (m : FsState) (q : String)
    (h1 : q ≠ src) (h2 : q ≠ dst) :
    ((renameF src dst m).2).fs q = m.fs q := by
  have hs := renameF_spec src dst m
  cases ho : (renameF src dst m).1 with
  | none =>
    obtain ⟨b, hb, hfs⟩ := hs.2.1 ho
    rw [hfs]
    simp [fsSet, h1, h2]
  | some e => rw [hs.2.2 e ho]

theorem removeF_frame (p : String) (m : FsState) (q : String) (h1 : q ≠ p) :
    ((removeF p m).2).fs q = m.fs q := by
  have hs := removeF_spec p m
  cases ho : (removeF p m).1 with
  | none =>
    rw [hs.2.1 ho]
    simp [fsSet, h1]
  | some e => rw [hs.2.2 e ho]

theorem copyF_frame (src dst : String) (m : FsState) (q : String)
    (h2 : q ≠ dst) :
    ((copyF src dst m).2).fs q = m.fs q := by
  have hs := copyF_spec src dst m
  cases ho : (copyF src dst m).1 with
  | none =>
    obtain ⟨b, hb, hfs⟩ := hs.2.1 ho
    rw [hfs]
    simp [fsSet, h2]
  | some e => rw [hs.2.2 e ho]

theorem renameF_log (src dst : String) (m : FsState) :
    ((renameF src dst m).2).log = m.log ++ [FsOp.renameOp src dst] :=
  (renameF_spec src dst m).1

theorem removeF_log (p : String) (m : FsState) :
    ((removeF p m).2).log = m.log ++ [FsOp.removeOp p] :=
  (removeF_spec p m).1

theorem copyF_log (src dst : String) (m : FsState) :
    ((copyF src dst m).2).log = m.log ++ [FsOp.copyOp src dst] :=
  (copyF_spec src dst m).1

theorem renameF_fail_fs (src dst : String) (m : FsState) (e : FsErr)
    (m2 : FsState) (h : renameF src dst m = (some e, m2)) : m2.fs = m.fs := by
  have h1 : (renameF src dst m).1 = some e := by rw [h]
  have h2 : (renameF src dst m).2 = m2 := by rw [h]
  rw [← h2]
  exact (renameF_spec src dst m).2.2 e h1

theorem removeF_fail_fs (p : String) (m : FsState) (e : FsErr)
    (m2 : FsState) (h : removeF p m = (some e, m2)) : m2.fs = m.fs := by
  have h1 : (removeF p m).1 = some e := by rw [h]
  have h2 : (removeF p m).2 = m2 := by rw [h]
  rw [← h2]
  exact (removeF_spec p m).2.2 e h1

theorem renameF_success (src dst : String) (m : FsState) (m2 : FsState)
    (h : renameF src dst m = (none, m2)) :
    ∃ b, m.fs src = some b ∧ m2.fs = fsSet (fsSet m.fs src none) dst (some b) := by
  have h1 : (renameF src dst m).1 = none := by rw [h]
  have h2 : (renameF src dst m).2 = m2 := by rw [h]
  rw [← h2]
  exact (renameF_spec src dst m).2.1 h1

theorem moveFile_frame (src dst : String) (m : FsState) (q : String)
    (h1 : q ≠ src) (h2 : q ≠ dst) :
    ((moveFile src dst m).2).fs q = m.fs q := by
  unfold moveFile
  split
  · rename_i m1 heq
    have hfr := renameF_frame src dst m q h1 h2
    rw [heq] at hfr
    exact hfr
  · rename_i e m1 heq
    have hfr := renameF_frame src dst m q h1 h2
    rw [heq] at hfr
    split
    · split
      · rename_i m2 heq2
        have hc := copyF_frame src dst m1 q h2
        rw [heq2] at hc
        have hd := removeF_frame src m2 q h1
        simp only at hfr hc hd ⊢
        rw [hd, hc, hfr]
      · rename_i e2 m2 heq2
        have hc := copyF_frame src dst m1 q h2
        rw [heq2] at hc
        simp only at hfr hc ⊢
        rw [hc, hfr]
    · exact hfr

theorem moveFile_log_mono (src dst : String) (m : FsState) :
    ∃ l, ((moveFile src dst m).2).log = m.log ++ l := by
  unfold moveFile
  split
  · rename_i m1 heq
    have hl := renameF_log src dst m
    rw [heq] at hl
    exact ⟨_, hl⟩
  · rename_i e m1 heq
    have hl := renameF_log src dst m
    rw [heq] at hl
    split
    · split
      · rename_i m2 heq2
        have hl2 := copyF_log src dst m1
        rw [heq2] at hl2
        have hl3 := removeF_log src m2
        simp only at hl hl2 hl3 ⊢
        rw [hl3, hl2, hl, List.append_assoc, List.append_assoc]
        exact ⟨_, rfl⟩
      · rename_i e2 m2 heq2
        have hl2 := copyF_log src dst m1
        rw [heq2] at hl2
        simp only at hl hl2 ⊢
        rw [hl2, hl, List.append_assoc]
        exact ⟨_, rfl⟩
    · exact ⟨_, hl⟩

theorem getLast?_append_singleton {α} (l : List α) (a : α) :
    (l ++ [a]).getLast? = some a := by
  rw [List.getLast?_append_cons]
  rfl

theorem replaceOriginalFile_eq (originalPath transcodedPath : String) (m : FsState) :
    replaceOriginalFile originalPath transcodedPath m =
      match (match renameF originalPath (originalPath ++ ".backup") m with
        | (some e, m1) => (some e, m1)
        | (none, m1) =>
          match moveFile transcodedPath originalPath m1 with
          | (some e, m2) => (some e, m2)
          | (none, m2) => removeF (originalPath ++ ".backup") m2) with
      | (none, m3) => (none, m3)
      | (some e, m3) =>
        (some e, (renameF (originalPath ++ ".backup") originalPath m3).2) := rfl

theorem restore_step (backup orig : String) (m3 : FsState) (co : Blob)
    (hb : m3.fs backup = some co ∨ (m3.fs orig = some co ∧ m3.fs backup = none)) :
    ((renameF backup orig m3).2).fs orig = some co ∨
      ((renameF backup orig m3).2).fs backup = some co := by
  cases ho : (renameF backup orig m3).1 with
  | none =>
    obtain ⟨b, hbsome, hfs⟩ := (renameF_spec backup orig m3).2.1 ho
    rcases hb with hb | ⟨hbo, hbn⟩
    · left
      rw [hfs]
      rw [hbsome] at hb
      simp [fsSet]
      exact Option.some.inj hb
    · rw [hbn] at hbsome
      exact absurd hbsome (by simp)
  | some e =>
    rw [(renameF_spec backup orig m3).2.2 e ho]
    rcases hb with hb | ⟨hbo, _⟩
    · exact Or.inr hb
    · exact Or.inl hbo

/-- C1: in-place commit crash safety. replaceOriginalFile always performs
the backup rename first (it is the first logged operation), and whenever
any step fails after it, the last operation attempted before the error
propagates is the rename of the backup back to the original path, so the
original contents always survive at the original path or the backup path. -/
theorem claim_C1 (orig temp : String) (co ct : Blob) (m : FsState) (e : FsErr)
    (m' : FsState)
    (hot : orig ≠ temp)
    (hob : orig ≠ orig ++ ".backup")
    (htb : temp ≠ orig ++ ".backup")
    (hlog : m.log = [])
    (hfo : m.fs orig = some co) (hft : m.fs temp = some ct)
    (hfb : m.fs (orig ++ ".backup") = none)
    (hrun : replaceOriginalFile orig temp m = (some e, m')) :
    m'.log.head? = some (FsOp.renameOp orig (orig ++ ".backup"))
    ∧ m'.log.getLast? = some (FsOp.renameOp (orig ++ ".backup") orig)
    ∧ (m'.fs orig = some co ∨ m'.fs (orig ++ ".backup") = some co) := by
  rw [replaceOriginalFile_eq] at hrun
  split at hrun
  · exact absurd (congrArg Prod.fst hrun) (by simp)
  · rename_i e3 m3 heqbody
    have hm' : m' = (renameF (orig ++ ".backup") orig m3).2 :=
      (congrArg Prod.snd hrun).symm
    have hlast : m'.log.getLast? = some (FsOp.renameOp (orig ++ ".backup") orig) := by
      rw [hm', renameF_log]
      exact getLast?_append_singleton _ _
    have hmain : (∃ l', m3.log = m.log ++ (FsOp.renameOp orig (orig ++ ".backup") :: l'))
        ∧ (m3.fs (orig ++ ".backup") = some co ∨
            (m3.fs orig = some co ∧ m3.fs (orig ++ ".backup") = none)) := by
      split at heqbody
      · rename_i e1 m1 heq1
        have hm3 : m1 = m3 := congrArg Prod.snd heqbody
        have hfsm3 : m3.fs = m.fs := by
          rw [← hm3]
          exact renameF_fail_fs _ _ _ _ _ heq1
        have hlogm1 := renameF_log orig (orig ++ ".backup") m
        rw [heq1] at hlogm1
        refine ⟨⟨[], by rw [← hm3]; exact hlogm1⟩, Or.inr ?_⟩
        rw [hfsm3]
        exact ⟨hfo, hfb⟩
      · rename_i m1 heq1
        obtain ⟨b, hbsome, hfs1⟩ := renameF_success _ _ _ _ heq1
        have hbco : b = co := Option.some.inj (hbsome.symm.trans hfo)
        subst hbco
        have hlogm1 := renameF_log orig (orig ++ ".backup") m
        rw [heq1] at hlogm1
        have hm1backup : m1.fs (orig ++ ".backup") = some b := by
          rw [hfs1]
          simp [fsSet]
        split at heqbody
        · rename_i e2 m2 heq2
          have hm3 : m2 = m3 := congrArg Prod.snd heqbody
          have hframe := moveFile_frame temp orig m1 (orig ++ ".backup")
            (Ne.symm htb) (Ne.symm hob)
          rw [heq2] at hframe
          obtain ⟨l2, hl2⟩ := moveFile_log_mono temp orig m1
          rw [heq2] at hl2
          refine ⟨⟨l2, ?_⟩, Or.inl ?_⟩
          · rw [← hm3]
            simp only at hl2
            rw [hl2, hlogm1, List.append_assoc]
            rfl
          · rw [← hm3]
            simp only at hframe
            rw [hframe]
            exact hm1backup
        · rename_i m2 heq2
          have hframe := moveFile_frame temp orig m1 (orig ++ ".backup")
            (Ne.symm htb) (Ne.symm hob)
          rw [heq2] at hframe
          obtain ⟨l2, hl2⟩ := moveFile_log_mono temp orig m1
          rw [heq2] at hl2
          have hfsm3 : m3.fs = m2.fs := removeF_fail_fs _ _ _ _ heqbody
          have hlogm3 := removeF_log (orig ++ ".backup") m2
          rw [heqbody] at hlogm3
          refine ⟨⟨l2 ++ [FsOp.removeOp (orig ++ ".backup")], ?_⟩, Or.inl ?_⟩
          · simp only at hlogm3 hl2
            rw [hlogm3, hl2, hlogm1, List.append_assoc, List.append_assoc]
            rfl
          · rw [hfsm3]
            simp only at hframe
            rw [hframe]
            exact hm1backup
    obtain ⟨⟨l', hl'⟩, hbdisj⟩ := hmain
    refine ⟨?_, hlast, ?_⟩
    · rw [hm', renameF_log, hl', hlog, List.nil_append, List.cons_append]
      rfl
    · rw [hm']
      exact restore_step (orig ++ ".backup") orig m3 co hbdisj

theorem claim_C1_witness :
    crashOrig ≠ crashTemp
    ∧ crashOrig ≠ crashOrig ++ ".backup"
    ∧ crashTemp ≠ crashOrig ++ ".backup"
    ∧ crashState.log = []
    ∧ crashState.fs crashOrig = some ⟨50, 1⟩
    ∧ crashState.fs crashTemp = some ⟨40, 2⟩
    ∧ crashState.fs (crashOrig ++ ".backup") = none
    ∧ replaceOriginalFile crashOrig crashTemp crashState =
        (some FsErr.other, (replaceOriginalFile crashOrig crashTemp crashState).2)
    ∧ ((replaceOriginalFile crashOrig crashTemp crashState).2.log.head? =
          some (FsOp.renameOp crashOrig (crashOrig ++ ".backup"))
        ∧ (replaceOriginalFile crashOrig crashTemp crashState).2.log.getLast? =
          some (FsOp.renameOp (crashOrig ++ ".backup") crashOrig)
        ∧ ((replaceOriginalFile crashOrig crashTemp crashState).2.fs crashOrig =
              some ⟨50, 1⟩
          ∨ (replaceOriginalFile crashOrig crashTemp crashState).2.fs
              (crashOrig ++ ".backup") = some ⟨50, 1⟩)) := by
  have h1 : (replaceOriginalFile crashOrig crashTemp crashState).1 =
      some FsErr.other := by decide
  have hrun : replaceOriginalFile crashOrig crashTemp crashState =
      (some FsErr.other, (replaceOriginalFile crashOrig crashTemp crashState).2) := by
    rw [← h1]
  refine ⟨by decide, by decide, by decide, rfl, by decide, by decide, by decide,
    hrun, ?_⟩
  exact claim_C1 crashOrig crashTemp ⟨50, 1⟩ ⟨40, 2⟩ crashState FsErr.other
    ((replaceOriginalFile crashOrig crashTemp crashState).2)
    (by decide) (by decide) (by decide) rfl (by decide) (by decide) (by decide) hrun

theorem removeF_ok (p : String) (m : FsState) (b : Blob)
    (hp : m.fs p = some b) (hs : m.sched = []) :
    removeF p m =
      (none, ⟨fsSet m.fs p none, m.sched, m.log ++ [FsOp.removeOp p]⟩) := by
  unfold removeF nextOutcome
  rcases m with ⟨fs, sched, log⟩
  simp only at hs hp
  subst hs
  simp [hp]

/-- C2 amended: for every in-place job whose encode succeeds with no
filesystem failures and whose transcoded temp file is not smaller than the
original, transcodeFile reports success with a record carrying the
kept-original note and the original size as the new size, removes the temp
file, and leaves the original file untouched on disk. -/
theorem claim_C2 (file : MediaFile) (config : Config) (env : TranscodeEnv)
    (m : FsState) (ob : Blob)
    (hdry : config.dryRun = false)
    (hip : shouldOutputInPlace file config = true)
    (hexit : env.ffmpegExit = 0)
    (hsched : m.sched = [])
    (hne : getTempOutputPath config file.path ≠ file.path)
    (horig : m.fs file.path = some ob)
    (hge : ob.size ≤ env.ffmpegOutput.size) :
    (transcodeFile file config env m).1.success = true
    ∧ (∃ r, (transcodeFile file config env m).1.record = some r ∧ r.success = true
        ∧ r.error = some "Transcoded file was not smaller - kept original"
        ∧ r.originalSize = ob.size ∧ r.newSize = ob.size)
    ∧ ((transcodeFile file config env m).2).fs file.path = some ob
    ∧ ((transcodeFile file config env m).2).fs
        (getTempOutputPath config file.path) = none := by
  have hstat1 : fsSet m.fs (getTempOutputPath config file.path)
      (some env.ffmpegOutput) file.path = some ob := by
    unfold fsSet
    rw [if_neg (Ne.symm hne)]
    exact horig
  have hstat2 : fsSet m.fs (getTempOutputPath config file.path)
      (some env.ffmpegOutput) (getTempOutputPath config file.path) =
      some env.ffmpegOutput := by
    unfold fsSet
    rw [if_pos rfl]
  have hrun : transcodeFile file config env m =
      ({ success := true
         record := some
           { originalPath := file.path, transcodedAt := env.nowIso,
             originalCodec := file.codec, originalWidth := file.width,
             originalHeight := file.height, newWidth := file.width,
             newHeight := file.height, originalSize := ob.size,
             newSize := ob.size,
             duration := (env.endTime - env.startTime) / 1000, success := true,
             error := some "Transcoded file was not smaller - kept original" }
         error := none, outputPath := none },
       ⟨fsSet (fsSet m.fs (getTempOutputPath config file.path)
           (some env.ffmpegOutput)) (getTempOutputPath config file.path) none,
        m.sched,
        m.log ++ [FsOp.removeOp (getTempOutputPath config file.path)]⟩) := by
    simp only [transcodeFile, hdry, Bool.false_eq_true, if_false, hexit, ne_eq,
      eq_self_iff_true, not_true, if_false]
    split
    · rename_i heq
      rw [hstat1] at heq
      exact absurd heq (by simp)
    · rename_i originalStat heq
      rw [hstat1] at heq
      injection heq with heq'
      subst heq'
      split
      · rename_i heq2
        rw [hstat2] at heq2
        exact absurd heq2 (by simp)
      · rename_i newStat heq2
        rw [hstat2] at heq2
        injection heq2 with heq2'
        subst heq2'
        rw [if_pos ⟨hip, hge⟩,
          removeF_ok (getTempOutputPath config file.path)
            ⟨fsSet m.fs (getTempOutputPath config file.path) (some env.ffmpegOutput),
             m.sched, m.log⟩
            env.ffmpegOutput hstat2 hsched]
  rw [hrun]
  refine ⟨rfl, ⟨_, rfl, rfl, rfl, rfl, rfl⟩, ?_, ?_⟩
  · simp only [fsSet]
    rw [if_neg (Ne.symm hne), if_neg (Ne.symm hne)]
    exact horig
  · simp [fsSet]

theorem claim_C2_witness :
    sampleConfig.dryRun = false
    ∧ shouldOutputInPlace cexFile sampleConfig = true
    ∧ cexEnv.ffmpegExit = 0
    ∧ cexState.sched = []
    ∧ getTempOutputPath sampleConfig cexFile.path ≠ cexFile.path
    ∧ cexState.fs cexFile.path = some ⟨50, 3⟩
    ∧ (Blob.mk 50 3).size ≤ cexEnv.ffmpegOutput.size
    ∧ ((transcodeFile cexFile sampleConfig cexEnv cexState).1.success = true
      ∧ (∃ r, (transcodeFile cexFile sampleConfig cexEnv cexState).1.record = some r
          ∧ r.success = true
          ∧ r.error = some "Transcoded file was not smaller - kept original"
          ∧ r.originalSize = (Blob.mk 50 3).size ∧ r.newSize = (Blob.mk 50 3).size)
      ∧ ((transcodeFile cexFile sampleConfig cexEnv cexState).2).fs cexFile.path =
          some ⟨50, 3⟩
      ∧ ((transcodeFile cexFile sampleConfig cexEnv cexState).2).fs
          (getTempOutputPath sampleConfig cexFile.path) = none) :=
  ⟨rfl, by decide, rfl, rfl, by decide, by decide, by decide,
   claim_C2 cexFile sampleConfig cexEnv cexState ⟨50, 3⟩ rfl (by decide) rfl rfl
     (by decide) (by decide) (by decide)⟩

mutual
theorem walkNode_ok (path : String) (skip : String → Bool) (c : FsNode)
    (h : allReadableNode c = true) :
    ∃ l, walkNode path skip c = Except.ok l := by
  cases c with
  | file name size =>
    unfold walkNode
    by_cases hs : skip (path ++ "/" ++ name) <;> simp [hs]
  | dir name readable children =>
    simp only [allReadableNode, Bool.and_eq_true] at h
    unfold walkNode
    by_cases hs : skip (path ++ "/" ++ name)
    · simp [hs]
    · simp only [hs, Bool.false_eq_true, if_false, h.1, if_true]
      exact walkChildren_ok (path ++ "/" ++ name) skip children h.2
theorem walkChildren_ok (path : String) (skip : String → Bool)
    (cs : List FsNode) (h : allReadableChildren cs = true) :
    ∃ l, walkChildren path skip cs = Except.ok l := by
  cases cs with
  | nil => exact ⟨[], rfl⟩
  | cons c cs =>
    simp only [allReadableChildren, Bool.and_eq_true] at h
    obtain ⟨l1, hl1⟩ := walkNode_ok path skip c h.1
    obtain ⟨l2, hl2⟩ := walkChildren_ok path skip cs h.2
    unfold walkChildren
    rw [hl1, hl2]
    exact ⟨l1 ++ l2, rfl⟩
end

theorem discoverDirectory_ok (dirPath : String) (children : List FsNode)
    (config : Config) (h : allReadableChildren children = true) :
    ∃ r, discoverDirectory dirPath true children config = Except.ok r := by
  obtain ⟨l, hl⟩ := walkChildren_ok dirPath
    (match buildDirectorySkip config with
     | some f => f
     | none => fun _ => false) children h
  unfold discoverDirectory walkRoot
  simp only [hl, if_true]
  exact ⟨_, rfl⟩

theorem discoverGo_ok (config : Config) (rootFs : String → RootEntry)
    (roots : List String) :
    ∀ acc : DiscoveryResult,
      (∀ r ∈ roots, rootOk (rootFs r) = true) →
      ∃ res, discoverMediaFilesGo config rootFs roots acc = Except.ok res
        ∧ (∀ s ∈ acc.skippedDirs, s ∈ res.skippedDirs)
        ∧ (∀ r ∈ roots,
            (rootFs r = RootEntry.missing ∨ rootFs r = RootEntry.notDir) →
            r ∈ res.skippedDirs) := by
  induction roots with
  | nil =>
    intro acc _
    exact ⟨acc, rfl, fun s hs => hs, by simp⟩
  | cons root roots ih =>
    intro acc h
    have hroot := h root (by simp)
    cases hr : rootFs root with
    | missing =>
      obtain ⟨res, hres, hmono, hmem⟩ :=
        ih { acc with skippedDirs := acc.skippedDirs ++ [root] }
          (fun r hrr => h r (by simp [hrr]))
      refine ⟨res, ?_, ?_, ?_⟩
      · simp only [discoverMediaFilesGo, hr]
        exact hres
      · intro s hs
        exact hmono s (by simp [hs])
      · intro r hrl hcase
        rcases List.mem_cons.mp hrl with rfl | hrl2
        · exact hmono r (by simp)
        · exact hmem r hrl2 hcase
    | notDir =>
      obtain ⟨res, hres, hmono, hmem⟩ :=
        ih { acc with skippedDirs := acc.skippedDirs ++ [root] }
          (fun r hrr => h r (by simp [hrr]))
      refine ⟨res, ?_, ?_, ?_⟩
      · simp only [discoverMediaFilesGo, hr]
        exact hres
      · intro s hs
        exact hmono s (by simp [hs])
      · intro r hrl hcase
        rcases List.mem_cons.mp hrl with rfl | hrl2
        · exact hmono r (by simp)
        · exact hmem r hrl2 hcase
    | statFail =>
      rw [hr] at hroot
      exact absurd hroot (by simp [rootOk])
    | dirEntry readable children =>
      rw [hr] at hroot
      simp only [rootOk, Bool.and_eq_true] at hroot
      obtain ⟨hread, hchildren⟩ := hroot
      subst hread
      obtain ⟨dres, hdres⟩ := discoverDirectory_ok root children config hchildren
      obtain ⟨res, hres, hmono, hmem⟩ :=
        ih { acc with files := acc.files ++ dres.files,
                      excluded := acc.excluded ++ dres.excluded }
          (fun r hrr => h r (by simp [hrr]))
      refine ⟨res, ?_, ?_, ?_⟩
      · simp only [discoverMediaFilesGo, hr, hdres]
        exact hres
      · intro s hs
        exact hmono s hs
      · intro r hrl hcase
        rcases List.mem_cons.mp hrl with rfl | hrl2
        · rw [hr] at hcase
          rcases hcase with hcase | hcase <;> exact absurd hcase (by simp)
        · exact hmem r hrl2 hcase

/-- C9 corrected: discovery tolerates missing and non-directory roots by
recording them in skippedDirs and continuing, and discovery over roots
whose directory trees are readable succeeds (files whose stat fails are
skipped rather than fatal); an unreadable subdirectory, however, makes the
walk raise and the error propagate, which the counterexample shows. -/
theorem claim_C9 (config : Config) (rootFs : String → RootEntry)
    (hok : ∀ r ∈ config.mediaDirs, rootOk (rootFs r) = true) :
    ∃ res, discoverMediaFiles config rootFs = Except.ok res
      ∧ ∀ r ∈ config.mediaDirs,
          (rootFs r = RootEntry.missing ∨ rootFs r = RootEntry.notDir) →
          r ∈ res.skippedDirs := by
  obtain ⟨res, hres, -, hmem⟩ :=
    discoverGo_ok config rootFs config.mediaDirs ⟨[], [], [], 0⟩ hok
  refine ⟨{ res with
    totalSize := res.files.foldl (fun sum f => sum + f.size) 0 }, ?_, ?_⟩
  · unfold discoverMediaFiles
    rw [hres]
  · intro r hrl hcase
    exact hmem r hrl hcase

theorem claim_C9_witness :
    (∀ r ∈ sampleConfig.mediaDirs, rootOk (readableRootFs r) = true)
    ∧ (∃ res, discoverMediaFiles sampleConfig readableRootFs = Except.ok res
        ∧ ∀ r ∈ sampleConfig.mediaDirs,
            (readableRootFs r = RootEntry.missing ∨
              readableRootFs r = RootEntry.notDir) →
            r ∈ res.skippedDirs) :=
  ⟨by decide, claim_C9 sampleConfig readableRootFs (by decide)⟩

/-- C9 counterexample: with an unreadable subdirectory below the media
root, discoverMediaFiles raises (the walk error propagates) instead of
skipping the subdirectory and returning the files discovered elsewhere. -/
theorem claim_C9_counterexample :
    discoverMediaFiles sampleConfig lockedRootFs = Except.error "/media/locked" := by
  rfl

/-- C2 counterexample: a separate-output job whose encode succeeds with the
transcoded file larger than the original still succeeds, but its record
carries no kept-original note (the output is moved to the output directory
instead), refuting the claim for jobs that are not in-place. -/
theorem claim_C2_counterexample :
    sepConfig.dryRun = false
    ∧ cexEnv.ffmpegExit = 0
    ∧ cexState.fs cexFile.path = some ⟨50, 3⟩
    ∧ (Blob.mk 50 3).size ≤ cexEnv.ffmpegOutput.size
    ∧ (transcodeFile cexFile sepConfig cexEnv cexState).1.success = true
    ∧ ((transcodeFile cexFile sepConfig cexEnv cexState).1.record.map
        (fun r => r.error)) = some none
    ∧ ((transcodeFile cexFile sepConfig cexEnv cexState).2).fs "/out/a.mkv" =
        some ⟨100, 7⟩ := by
  refine ⟨rfl, rfl, by decide, by decide, ?_, ?_, ?_⟩ <;> decide

end DangerTranscode
